import Mathlib

/-!
# Display-name parsing and transport selection of `xcb_util.c`

A shallow embedding of `XCBPopcount`, `XCBParseDisplay`, `_xcb_open`,
`_xcb_open_tcp`, `_xcb_open_unix`, `XCBConnect` and
`XCBConnectToDisplayWithAuthInfo` from `src/xcb_util.c`, with the properties of
the population count, of the display-name parser, of the transport dispatch and
of the connect functions proved over it.

Conventions of the embedding.

* A C string is the list of its characters before the terminating NUL; a
  `char *` that may be NULL is an `Option (List Char)`.  A pointer into a
  string is an offset from its start, so `colon - name` is a natural number and
  `dot == colon` compares offsets.  Strings are shorter than `INT_MAX`, so the
  `int len` of the source holds that offset unchanged.
* `int` is 32 bits wide, two's complement; `unsigned short` is 16 bits wide;
  the width of `unsigned long` is the field `ulongBits` of the environment
  (32 on ILP32, 64 on LP64).
* The C library and the operating system are outside the repository: `getenv`
  and `malloc` are fields of `Env`, the socket calls are fields of `Sys`, and
  `strtoul`, `strrchr`, `snprintf` follow ISO C.
-/

namespace XCB

/-! ## C library -/

/-- The `isspace` of the "C" locale: space, `\t`, `\n`, `\v`, `\f`, `\r`. -/
def isspace (c : Char) : Bool :=
  c.toNat = 32 || (decide (9 ≤ c.toNat) && decide (c.toNat ≤ 13))

/-- The `isdigit` of C: one of `'0'` .. `'9'`. -/
def isdigit (c : Char) : Bool :=
  decide (48 ≤ c.toNat) && decide (c.toNat ≤ 57)

/-- The `isalnum` of the "C" locale: a decimal digit or an ASCII letter. -/
def isalnum (c : Char) : Bool :=
  isdigit c || (decide (65 ≤ c.toNat) && decide (c.toNat ≤ 90))
    || (decide (97 ≤ c.toNat) && decide (c.toNat ≤ 122))

/-- Value of a string of decimal digits, most significant digit first. -/
def digitsValue (ds : List Char) : Nat :=
  ds.foldl (fun acc c => 10 * acc + (c.toNat - 48)) 0

/-- Largest value of `unsigned long` when that type is `w` bits wide. -/
def ULONG_MAX (w : Nat) : Nat := 2 ^ w - 1

/-- Length of the optional sign that `strtoul` accepts, and whether it is `-`. -/
def signOf (s : List Char) : Nat × Bool :=
  match s with
  | [] => (0, false)
  | c :: _ => if c = '-' then (1, true) else if c = '+' then (1, false) else (0, false)

/-- ISO C `strtoul(nptr, &endptr, 10)` for a `w`-bit `unsigned long`: skips
leading white space, takes an optional sign, then the longest run of decimal
digits.  Returns the converted value and the offset of `endptr` from `nptr`.
With no digits there is no conversion: the value is 0 and `endptr == nptr`.
A value above `ULONG_MAX` is returned as `ULONG_MAX`; with a minus sign the
value is negated in `unsigned long`. -/
def strtoul (w : Nat) (nptr : List Char) : Nat × Nat :=
  let ws := (nptr.takeWhile isspace).length
  let sg := signOf (nptr.drop ws)
  let ds := (nptr.drop (ws + sg.1)).takeWhile isdigit
  if ds.length = 0 then (0, 0)
  else
    let v := digitsValue ds
    let r := if ULONG_MAX w < v then ULONG_MAX w
             else if sg.2 then (2 ^ w - v) % 2 ^ w else v
    (r, ws + sg.1 + ds.length)

/-- ISO C `strrchr(s, c)` for a character `c` other than NUL: the offset of the
last occurrence of `c` in `s`, or `none` for the null pointer. -/
def strrchr : List Char → Char → Option Nat
  | [], _ => none
  | x :: t, c =>
    match strrchr t c with
    | some i => some (i + 1)
    | none => if x = c then some 0 else none

/-- Conversion of an integer value to the 32-bit `int` of the source (what the
assignments `display = strtoul(...)` and `screen = strtoul(...)` do): the value
modulo `2^32`, read as two's complement. -/
def toCInt (v : Int) : Int :=
  if v % 2 ^ 32 < 2 ^ 31 then v % 2 ^ 32 else v % 2 ^ 32 - 2 ^ 32

/-! ## Environment of a call -/

/-- What `XCBParseDisplay` reads from outside the program. -/
structure Env where
  /-- Width of `unsigned long` in bits. -/
  ulongBits : Nat
  /-- Result of `getenv("DISPLAY")`, `none` for the null pointer. -/
  DISPLAY : Option (List Char)
  /-- Whether `malloc n` returns a non-null pointer. -/
  malloc : Nat → Bool

/-- The caller's memory that `XCBParseDisplay` may write: `*host` (`none` is the
null pointer), `*displayp`, and `*screenp` (`none` when `screenp` itself is
null, so that there is no slot). -/
structure Slots where
  host : Option (List Char)
  display : Int
  screen : Option Int
deriving DecidableEq, Repr

/-! ## `XCBParseDisplay` -/

/-- Lines 68-78: the screen number read at `dot`, or `none` where the source
returns 0. -/
def parseScreen (w : Nat) (dot : List Char) : Option Int :=
  match dot with
  | [] => some 0
  | c :: dot1 =>
    if c ≠ '.' then none
    else
      let r := strtoul w dot1
      if r.2 = 0 ∨ dot1.drop r.2 ≠ [] then none
      else some (toCInt r.1)

/-- The function `XCBParseDisplay(name, host, displayp, screenp)`: the returned
`int` and the caller's slots after the call. -/
def XCBParseDisplay (E : Env) (name : Option (List Char)) (out : Slots) : Int × Slots :=
  let name := if name = none ∨ name = some [] then E.DISPLAY else name
  match name with
  | none => (0, out)
  | some name =>
    match strrchr name ':' with
    | none => (0, out)
    | some len =>
      let colon := name.drop (len + 1)
      let r := strtoul E.ulongBits colon
      let display := toCInt r.1
      if r.2 = 0 then (0, out)
      else
        match parseScreen E.ulongBits (colon.drop r.2) with
        | none => (0, out)
        | some screen =>
          if E.malloc (len + 1) = false then (0, { out with host := none })
          else
            (1, { host := some (name.take len),
                  display := display,
                  screen := out.screen.map (fun _ => screen) })

/-! ## Transport selection -/

/-- Modelled from the spec: the macro `X_TCP_PORT` comes from a header that is
not part of the sources; the spec gives the X11 base TCP port as 6000. -/
def X_TCP_PORT : Int := 6000

/-- Address family of a socket. -/
inductive Family where
  | inet
  | unix
deriving DecidableEq, Repr

/-- The address handed to `connect`: `sockaddr_in` (port in host order, IPv4
address) or `sockaddr_un` (path). -/
inductive SockAddr where
  | inet (port : Nat) (addr : Nat)
  | unix (path : List Char)
deriving DecidableEq, Repr

/-- A call into the resolver or the socket layer, with what it returned. -/
inductive Event where
  | gethostbyname (host : List Char) (found : Bool)
  | socket (fam : Family) (ret : Int)
  | connect (fd : Int) (addr : SockAddr) (ret : Int)
  | close (fd : Int)
deriving DecidableEq, Repr

/-- The resolver and the socket layer as seen by one call of an opener. -/
structure Sys where
  /-- First address of the host entry, `none` when `gethostbyname` returns null. -/
  gethostbyname : List Char → Option Nat
  /-- Descriptor returned by `socket`, or -1. -/
  socket : Family → Int
  /-- Result of `connect`: 0, or -1. -/
  connect : Int → SockAddr → Int

/-- The function `_xcb_open_tcp(host, port)`: the returned descriptor (or -1) and
the calls made, in order. -/
def _xcb_open_tcp (S : Sys) (host : List Char) (port : Nat) : Int × List Event :=
  match S.gethostbyname host with
  | none => (-1, [Event.gethostbyname host false])
  | some a =>
    let addr := SockAddr.inet port a
    let fd := S.socket Family.inet
    if fd = -1 then (-1, [Event.gethostbyname host true, Event.socket Family.inet fd])
    else if S.connect fd addr = -1 then
      (-1, [Event.gethostbyname host true, Event.socket Family.inet fd,
            Event.connect fd addr (-1)])
    else
      (fd, [Event.gethostbyname host true, Event.socket Family.inet fd,
            Event.connect fd addr (S.connect fd addr)])

/-- The function `_xcb_open_unix(file)`: the returned descriptor (or -1) and the
calls made, in order.  The `strcpy` into `sun_path` copies `file` whole. -/
def _xcb_open_unix (S : Sys) (file : List Char) : Int × List Event :=
  let addr := SockAddr.unix file
  let fd := S.socket Family.unix
  if fd = -1 then (-1, [Event.socket Family.unix fd])
  else if S.connect fd addr = -1 then
    (-1, [Event.socket Family.unix fd, Event.connect fd addr (-1)])
  else
    (fd, [Event.socket Family.unix fd, Event.connect fd addr (S.connect fd addr)])

/-- The conversion `%d` of `printf` for an `int`. -/
def fmtInt (d : Int) : List Char :=
  if d < 0 then '-' :: (Nat.repr (-d).toNat).toList else (Nat.repr d.toNat).toList

/-- The array `base` of `_xcb_open`; `sizeof(base)` is its length plus one. -/
def base : List Char := "/tmp/.X11-unix/X".toList

/-- The function `_xcb_open(host, display)`.  The port is the `int` sum
`X_TCP_PORT + display` converted to the 16-bit `unsigned short`; `snprintf`
keeps at most `sizeof(file) - 1` characters. -/
def _xcb_open (S : Sys) (host : List Char) (display : Int) : Int × List Event :=
  if host ≠ [] then
    let port := ((X_TCP_PORT + display) % 2 ^ 16).toNat
    _xcb_open_tcp S host port
  else
    let file := (base ++ fmtInt display).take ((base.length + 1) + 20 - 1)
    _xcb_open_unix S file

/-! ## `XCBPopcount` -/

/-- Subtraction of `unsigned long` values, `w` bits wide: the difference modulo
`2^w`. -/
def subU (w a b : Nat) : Nat := (a % 2 ^ w + (2 ^ w - b % 2 ^ w)) % 2 ^ w

/-- The function `XCBPopcount(mask)` for a `CARD32` mask, with `y` an
`unsigned long` of `w` bits; the result is converted to `int`. -/
def XCBPopcount (w : Nat) (mask : Nat) : Int :=
  let y := (mask >>> 1) &&& 0o33333333333
  let y := subU w (subU w mask y) ((y >>> 1) &&& 0o33333333333)
  toCInt (((((y + (y >>> 3)) % 2 ^ w) &&& 0o30707070707) % 0o77 : Nat) : Int)

/-- Number of 1 bits among the lowest `k` bits of `n`, counted bit by bit. -/
def bitCount : Nat → Nat → Nat
  | 0, _ => 0
  | k + 1, n => n % 2 + bitCount k (n / 2)

/-- The naive population count of a 32-bit mask. -/
def popcount32 (mask : Nat) : Nat := bitCount 32 mask

/-- The mask with octal digits `3` in the lowest `k` places
(`octMask 11 = 033333333333`). -/
def octMask : Nat → Nat
  | 0 => 0
  | k + 1 => 3 + 8 * octMask k

/-- The number whose `k` lowest octal digits are `f` of those of `x`. -/
def mapOct (f : Nat → Nat) : Nat → Nat → Nat
  | 0, _ => 0
  | k + 1, x => f (x % 8) + 8 * mapOct f k (x / 8)

/-- Sum of `f` over the `k` lowest octal digits of `x`. -/
def sumOct (f : Nat → Nat) : Nat → Nat → Nat
  | 0, _ => 0
  | k + 1, x => f (x % 8) + sumOct f k (x / 8)

/-- The mask with octal digits `07` in the lowest `j` pairs of places and `3`
above them (`pairMask 5 = 030707070707`). -/
def pairMask : Nat → Nat
  | 0 => 3
  | j + 1 => 7 + 64 * pairMask j

/-- The number with, in base 64, the sums of `f` over the pairs of octal digits
of `x`: `j` pairs and one single digit on top. -/
def pairSums (f : Nat → Nat) : Nat → Nat → Nat
  | 0, x => f (x % 8)
  | j + 1, x => (f (x % 8) + f (x / 8 % 8)) + 64 * pairSums f j (x / 64)

/-- Population count of one octal digit. -/
def pc3 (d : Nat) : Nat := d - d / 2 - d / 4

/-! ## `XCBConnect` and `XCBConnectToDisplayWithAuthInfo` -/

/-- The structure `XCBAuthInfo`: authorization name and data. -/
structure XCBAuthInfo where
  name : List Char
  data : List Char
deriving DecidableEq, Repr

/-- The protocol layer, outside this file: what `XCBGetAuthInfo` stores for a
descriptor, and the connection that `XCBConnectToFD` returns (`none` is the
null pointer). -/
structure Proto where
  XCBGetAuthInfo : Int → XCBAuthInfo
  XCBConnectToFD : Int → XCBAuthInfo → Option Nat

/-- A call into the protocol layer. -/
inductive ProtoCall where
  | getAuthInfo (fd : Int)
  | connectToFD (fd : Int) (auth : XCBAuthInfo)
deriving DecidableEq, Repr

/-- Outcome of a connect function: the returned connection (`none` is null),
the caller's `*screenp` after the call, and the calls made to the system and to
the protocol layer, in order. -/
structure ConnectResult where
  conn : Option Nat
  screen : Option Int
  sys : List Event
  proto : List ProtoCall
deriving DecidableEq, Repr

/-- The function `XCBConnect(displayname, screenp)`.  The local `host` is
uninitialised before the parse (`host0`), the local `display` starts at 0; after
a successful parse `host` is non-null.  The calls of `free` release memory and
change nothing that is recorded here. -/
def XCBConnect (E : Env) (S : Sys) (P : Proto) (displayname : Option (List Char))
    (host0 : Option (List Char)) (screen0 : Option Int) : ConnectResult :=
  let r := XCBParseDisplay E displayname { host := host0, display := 0, screen := screen0 }
  if r.1 = 0 then { conn := none, screen := r.2.screen, sys := [], proto := [] }
  else
    let o := _xcb_open S (r.2.host.getD []) r.2.display
    if o.1 = -1 then { conn := none, screen := r.2.screen, sys := o.2, proto := [] }
    else
      let auth := P.XCBGetAuthInfo o.1
      { conn := P.XCBConnectToFD o.1 auth, screen := r.2.screen, sys := o.2,
        proto := [ProtoCall.getAuthInfo o.1, ProtoCall.connectToFD o.1 auth] }

/-- The function `XCBConnectToDisplayWithAuthInfo(displayname, auth, screenp)`. -/
def XCBConnectToDisplayWithAuthInfo (E : Env) (S : Sys) (P : Proto)
    (displayname : Option (List Char)) (auth : XCBAuthInfo)
    (host0 : Option (List Char)) (screen0 : Option Int) : ConnectResult :=
  let r := XCBParseDisplay E displayname { host := host0, display := 0, screen := screen0 }
  if r.1 = 0 then { conn := none, screen := r.2.screen, sys := [], proto := [] }
  else
    let o := _xcb_open S (r.2.host.getD []) r.2.display
    if o.1 = -1 then { conn := none, screen := r.2.screen, sys := o.2, proto := [] }
    else
      { conn := P.XCBConnectToFD o.1 auth, screen := r.2.screen, sys := o.2,
        proto := [ProtoCall.connectToFD o.1 auth] }

/-! ## Descriptors and buffers -/

/-- The descriptors left open by a sequence of calls, given those open before:
a `socket` that returns a descriptor opens it, `close` releases it. -/
def openAfter : List Event → List Int → List Int
  | [], fds => fds
  | Event.socket _ fd :: es, fds => openAfter es (if fd = -1 then fds else fd :: fds)
  | Event.close fd :: es, fds => openAfter es (fds.erase fd)
  | _ :: es, fds => openAfter es fds

/-- Size in bytes of the field `sun_path` of `struct sockaddr_un` on Linux. -/
def sunPathSize : Nat := 108

/-! ## Concrete environments for the worked inputs -/

/-- An LP64 machine with `DISPLAY` unset and an allocator that never fails. -/
def lp64 : Env := { ulongBits := 64, DISPLAY := none, malloc := fun _ => true }

/-- An ILP32 machine with `DISPLAY` unset and an allocator that never fails. -/
def ilp32 : Env := { ulongBits := 32, DISPLAY := none, malloc := fun _ => true }

/-- Caller slots before a call: null host pointer, zeroed numbers, a screen slot. -/
def slots0 : Slots := { host := none, display := 0, screen := some 0 }

/-- A system where every host resolves to address 7, `socket` returns
descriptor 3 and `connect` succeeds. -/
def sysOk : Sys := { gethostbyname := fun _ => some 7, socket := fun _ => 3, connect := fun _ _ => 0 }

/-- A system where `socket` returns descriptor 3 and `connect` fails. -/
def sysRefused : Sys :=
  { gethostbyname := fun _ => some 7, socket := fun _ => 3, connect := fun _ _ => -1 }

/-- A protocol layer that gives empty authorization and accepts every descriptor. -/
def protoOk : Proto :=
  { XCBGetAuthInfo := fun _ => { name := [], data := [] }, XCBConnectToFD := fun _ _ => some 1 }

/-! ## Lemmas on the C library functions -/

theorem takeWhile_append_stop (p : Char → Bool) (a b : List Char)
    (ha : ∀ c ∈ a, p c = true) (hb : ∀ c t, b = c :: t → p c = false) :
    (a ++ b).takeWhile p = a := by
  induction a with
  | nil =>
    cases b with
    | nil => rfl
    | cons c t => simp [List.takeWhile_cons, hb c t rfl]
  | cons x a ih =>
    have hx : p x = true := ha x (List.mem_cons_self x a)
    have ih1 := ih (fun c hc => ha c (List.mem_cons_of_mem x hc))
    simp [List.takeWhile_cons, hx, ih1]

theorem drop_length_takeWhile (p : Char → Bool) (l : List Char) :
    l.drop (l.takeWhile p).length = l.dropWhile p := by
  induction l with
  | nil => rfl
  | cons x l ih =>
    by_cases hx : p x = true
    · simp [List.takeWhile_cons, List.dropWhile_cons, hx, ih]
    · simp [List.takeWhile_cons, List.dropWhile_cons, hx]

theorem takeWhile_all (p : Char → Bool) (l : List Char) :
    ∀ c ∈ l.takeWhile p, p c = true := by
  induction l with
  | nil => simp
  | cons x l ih =>
    by_cases hx : p x = true
    · simp [List.takeWhile_cons, hx]
      exact ih
    · simp [List.takeWhile_cons, hx]

theorem dropWhile_head (p : Char → Bool) (l : List Char) :
    ∀ c t, l.dropWhile p = c :: t → p c = false := by
  induction l with
  | nil => simp
  | cons x l ih =>
    intro c t h
    by_cases hx : p x = true
    · rw [List.dropWhile_cons_of_pos hx] at h
      exact ih c t h
    · rw [List.dropWhile_cons_of_neg hx] at h
      cases h
      simpa using hx

theorem isdigit_not_isspace (c : Char) (h : isdigit c = true) : isspace c = false := by
  simp only [isdigit, isspace, Bool.and_eq_true, decide_eq_true_eq] at *
  simp only [Bool.or_eq_false_iff, Bool.and_eq_false_iff, decide_eq_false_iff_not]
  omega

theorem isdigit_ne_minus (c : Char) (h : isdigit c = true) : c ≠ '-' := by
  rintro rfl
  revert h
  decide

theorem isdigit_ne_plus (c : Char) (h : isdigit c = true) : c ≠ '+' := by
  rintro rfl
  revert h
  decide

theorem isdigit_ne_colon (c : Char) (h : isdigit c = true) : c ≠ ':' := by
  rintro rfl
  revert h
  decide

theorem isdigit_ne_dot (c : Char) (h : isdigit c = true) : c ≠ '.' := by
  rintro rfl
  revert h
  decide

theorem strrchr_none (c : Char) (s : List Char) (h : c ∉ s) : strrchr s c = none := by
  induction s with
  | nil => rfl
  | cons x t ih =>
    have hx : ¬ x = c := fun e => h (e ▸ List.mem_cons_self x t)
    have ht : c ∉ t := fun m => h (List.mem_cons_of_mem x m)
    simp [strrchr, ih ht, hx]

theorem strrchr_split (c : Char) (host rest : List Char) (h : c ∉ rest) :
    strrchr (host ++ c :: rest) c = some host.length := by
  induction host with
  | nil => simp [strrchr, strrchr_none c rest h]
  | cons x t ih => simp [strrchr, ih]

theorem strrchr_some (c : Char) (s : List Char) (i : Nat) (h : strrchr s c = some i) :
    ∃ host rest, s = host ++ c :: rest ∧ c ∉ rest ∧ i = host.length := by
  induction s generalizing i with
  | nil => simp [strrchr] at h
  | cons x t ih =>
    simp only [strrchr] at h
    cases hr : strrchr t c with
    | some j =>
      rw [hr] at h
      obtain ⟨host, rest, e, hn, hj⟩ := ih j hr
      refine ⟨x :: host, rest, by simp [e], hn, ?_⟩
      simp only [Option.some.injEq] at h
      simp [← h, hj]
    | none =>
      rw [hr] at h
      by_cases hx : x = c
      · simp only [hx, if_true, Option.some.injEq] at h
        refine ⟨[], t, by simp [hx], ?_, by simp [← h]⟩
        intro hm
        have : ∀ (l : List Char), c ∈ l → strrchr l c ≠ none := by
          intro l
          induction l with
          | nil => simp
          | cons y l ihl =>
            intro hm2
            simp only [strrchr]
            cases hl : strrchr l c with
            | some k => simp
            | none =>
              by_cases hy : y = c
              · simp [hy]
              · rcases List.mem_cons.1 hm2 with e | m
                · exact absurd e.symm hy
                · exact absurd hl (ihl m)
        exact this t hm hr
      · simp [hx] at h

theorem signOf_digit (c : Char) (t : List Char) (h : isdigit c = true) :
    signOf (c :: t) = (0, false) := by
  simp [signOf, isdigit_ne_minus c h, isdigit_ne_plus c h]

/-- What `strtoul` returns on white space, an optional sign, a non-empty run of
digits and a tail that does not start with a digit. -/
theorem strtoul_shape (w : Nat) (ws sg D tail : List Char)
    (hws : ∀ c ∈ ws, isspace c = true)
    (hsg : sg = [] ∨ sg = ['+'] ∨ sg = ['-'])
    (hD : D ≠ []) (hDd : ∀ c ∈ D, isdigit c = true)
    (ht : ∀ c t, tail = c :: t → isdigit c = false) :
    strtoul w (ws ++ (sg ++ (D ++ tail))) =
      (if ULONG_MAX w < digitsValue D then ULONG_MAX w
       else if sg = ['-'] then (2 ^ w - digitsValue D) % 2 ^ w else digitsValue D,
       ws.length + sg.length + D.length) := by
  obtain ⟨d, D1, rfl⟩ := List.exists_cons_of_ne_nil hD
  have hd : isdigit d = true := hDd d (List.mem_cons_self d D1)
  have h1 : (ws ++ (sg ++ (d :: D1 ++ tail))).takeWhile isspace = ws := by
    apply takeWhile_append_stop _ _ _ hws
    intro c t e
    rcases hsg with rfl | rfl | rfl
    · simp at e
      rw [← e.1]
      exact isdigit_not_isspace d hd
    · simp at e
      rw [← e.1]
      decide
    · simp at e
      rw [← e.1]
      decide
  have h2 : signOf (sg ++ (d :: D1 ++ tail)) = (sg.length, decide (sg = ['-'])) := by
    rcases hsg with rfl | rfl | rfl
    · simpa using signOf_digit d (D1 ++ tail) hd
    · simp [signOf]
    · simp [signOf]
  have h3 : (d :: D1 ++ tail).takeWhile isdigit = d :: D1 :=
    takeWhile_append_stop _ _ _ hDd ht
  unfold strtoul
  simp only [h1, List.drop_left, h2]
  have h4 : List.drop (ws.length + sg.length) (ws ++ (sg ++ (d :: D1 ++ tail)))
      = d :: D1 ++ tail := by
    rw [← List.append_assoc, ← List.length_append, List.drop_left]
  rw [h4, h3]
  simp

theorem signOf_split (s : List Char) :
    ∃ sg, (sg = [] ∨ sg = ['+'] ∨ sg = ['-']) ∧ s = sg ++ s.drop (signOf s).1 := by
  cases s with
  | nil => exact ⟨[], Or.inl rfl, by simp [signOf]⟩
  | cons c t =>
    by_cases h1 : c = '-'
    · exact ⟨['-'], Or.inr (Or.inr rfl), by simp [signOf, h1]⟩
    · by_cases h2 : c = '+'
      · exact ⟨['+'], Or.inr (Or.inl rfl), by simp [signOf, h2]⟩
      · exact ⟨[], Or.inl rfl, by simp [signOf, h1, h2]⟩

/-- When `strtoul` converts something, its argument is white space, an optional
sign, a non-empty run of digits and a tail that does not start with a digit. -/
theorem strtoul_consumed (w : Nat) (s : List Char) (h : (strtoul w s).2 ≠ 0) :
    ∃ ws sg D tail, s = ws ++ (sg ++ (D ++ tail)) ∧ (∀ c ∈ ws, isspace c = true) ∧
      (sg = [] ∨ sg = ['+'] ∨ sg = ['-']) ∧ D ≠ [] ∧ (∀ c ∈ D, isdigit c = true) ∧
      (∀ c t, tail = c :: t → isdigit c = false) := by
  obtain ⟨sg, hsg, hs1⟩ := signOf_split (s.dropWhile isspace)
  refine ⟨s.takeWhile isspace, sg,
    ((s.dropWhile isspace).drop (signOf (s.dropWhile isspace)).1).takeWhile isdigit,
    ((s.dropWhile isspace).drop (signOf (s.dropWhile isspace)).1).dropWhile isdigit,
    ?_, takeWhile_all _ _, hsg, ?_, takeWhile_all _ _, dropWhile_head _ _⟩
  · rw [List.takeWhile_append_dropWhile, ← hs1, List.takeWhile_append_dropWhile]
  · intro hD
    apply h
    unfold strtoul
    simp only [← List.drop_drop, drop_length_takeWhile, hD, List.length_nil, if_true]

/-- The parser on a name split at its last colon. -/
theorem parse_split (E : Env) (host rest : List Char) (out : Slots) (hc : ':' ∉ rest) :
    XCBParseDisplay E (some (host ++ ':' :: rest)) out =
      if (strtoul E.ulongBits rest).2 = 0 then ((0 : Int), out)
      else
        match parseScreen E.ulongBits (rest.drop (strtoul E.ulongBits rest).2) with
        | none => (0, out)
        | some screen =>
          if E.malloc (host.length + 1) = false then (0, { out with host := none })
          else (1, { host := some host,
                     display := toCInt (strtoul E.ulongBits rest).1,
                     screen := out.screen.map (fun _ => screen) }) := by
  have hne : ¬ (host ++ ':' :: rest = []) := by simp
  have hd : List.drop (host.length + 1) (host ++ ':' :: rest) = rest := by
    rw [show host ++ ':' :: rest = (host ++ [':']) ++ rest by simp,
      show host.length + 1 = (host ++ [':']).length by simp, List.drop_left]
  simp only [XCBParseDisplay, reduceCtorEq, Option.some.injEq, hne, or_self, if_false,
    strrchr_split ':' host rest hc, hd, List.take_left]

theorem toCInt_small (v : Nat) (h : v < 2 ^ 31) : toCInt (v : Int) = v := by
  unfold toCInt
  have h1 : ((v : Int) % 2 ^ 32) = v := by
    apply Int.emod_eq_of_lt <;> omega
  rw [h1]
  have : (v : Int) < 2 ^ 31 := by exact_mod_cast h
  rw [if_pos this]

theorem toCInt_range (v : Int) : -2 ^ 31 ≤ toCInt v ∧ toCInt v < 2 ^ 31 := by
  unfold toCInt
  have h1 : 0 ≤ v % 2 ^ 32 := Int.emod_nonneg v (by norm_num)
  have h2 : v % 2 ^ 32 < 2 ^ 32 := Int.emod_lt_of_pos v (by norm_num)
  split <;> constructor <;> omega

theorem ulong_small (w v : Nat) (hw : 32 ≤ w) (hv : v < 2 ^ 31) : ¬ ULONG_MAX w < v := by
  unfold ULONG_MAX
  have : 2 ^ 32 ≤ 2 ^ w := Nat.pow_le_pow_right (by norm_num) hw
  omega

theorem strtoul_digits (w : Nat) (D tail : List Char)
    (hD : D ≠ []) (hDd : ∀ c ∈ D, isdigit c = true)
    (ht : ∀ c t, tail = c :: t → isdigit c = false) :
    strtoul w (D ++ tail) =
      (if ULONG_MAX w < digitsValue D then ULONG_MAX w else digitsValue D, D.length) := by
  have h := strtoul_shape w [] [] D tail (by simp) (Or.inl rfl) hD hDd ht
  simpa using h

theorem not_colon_digits (D : List Char) (hDd : ∀ c ∈ D, isdigit c = true) : ':' ∉ D :=
  fun h => isdigit_ne_colon ':' (hDd ':' h) rfl

/-- The parser on `host:D.S` for digit strings `D` and `S`, on any machine. -/
theorem parse_display_screen (E : Env) (host D S : List Char) (out : Slots)
    (hD : D ≠ []) (hDd : ∀ c ∈ D, isdigit c = true)
    (hS : S ≠ []) (hSd : ∀ c ∈ S, isdigit c = true) :
    XCBParseDisplay E (some (host ++ ':' :: (D ++ '.' :: S))) out =
      if E.malloc (host.length + 1) = false then ((0 : Int), { out with host := none })
      else (1, { host := some host,
                 display := toCInt ((if ULONG_MAX E.ulongBits < digitsValue D
                   then ULONG_MAX E.ulongBits else digitsValue D : Nat) : Int),
                 screen := out.screen.map (fun _ =>
                   toCInt ((if ULONG_MAX E.ulongBits < digitsValue S
                     then ULONG_MAX E.ulongBits else digitsValue S : Nat) : Int)) }) := by
  have hc : ':' ∉ D ++ '.' :: S := by
    intro h
    rcases List.mem_append.1 h with h | h
    · exact not_colon_digits D hDd h
    · rcases List.mem_cons.1 h with h | h
      · exact absurd h (by decide)
      · exact not_colon_digits S hSd h
  have h1 := strtoul_digits E.ulongBits D ('.' :: S) hD hDd
    (by intro c t e; cases e; decide)
  have h2 := strtoul_digits E.ulongBits S [] hS hSd (by intro c t e; cases e)
  rw [List.append_nil] at h2
  have hDl : D.length ≠ 0 := by simpa using hD
  have hSl : S.length ≠ 0 := by simpa using hS
  rw [parse_split E host _ out hc, h1]
  simp only [hDl, if_false, List.drop_left, parseScreen, ne_eq, not_true_eq_false, h2, hSl,
    List.drop_length, or_self]

/-- The parser on `host:D` for a digit string `D`, on any machine. -/
theorem parse_display_only (E : Env) (host D : List Char) (out : Slots)
    (hD : D ≠ []) (hDd : ∀ c ∈ D, isdigit c = true) :
    XCBParseDisplay E (some (host ++ ':' :: D)) out =
      if E.malloc (host.length + 1) = false then ((0 : Int), { out with host := none })
      else (1, { host := some host,
                 display := toCInt ((if ULONG_MAX E.ulongBits < digitsValue D
                   then ULONG_MAX E.ulongBits else digitsValue D : Nat) : Int),
                 screen := out.screen.map (fun _ => (0 : Int)) }) := by
  have h1 := strtoul_digits E.ulongBits D [] hD hDd (by intro c t e; cases e)
  rw [List.append_nil] at h1
  have hDl : D.length ≠ 0 := by simpa using hD
  rw [parse_split E host _ out (not_colon_digits D hDd), h1]
  simp only [hDl, if_false, List.drop_length, parseScreen]

theorem strtoul_no_conversion (w : Nat) (s : List Char)
    (h : ∀ c t, s = c :: t → isdigit c = false ∧ isspace c = false ∧ c ≠ '+' ∧ c ≠ '-') :
    (strtoul w s).2 = 0 := by
  cases s with
  | nil => simp [strtoul, signOf]
  | cons c t =>
    obtain ⟨h1, h2, h3, h4⟩ := h c t rfl
    simp [strtoul, signOf, List.takeWhile_cons, h1, h2, h3, h4]

/-- The text that `parseScreen` accepts after the display digits: a dot, white
space, an optional sign, and a non-empty run of digits up to the end. -/
theorem parseScreen_isSome_iff (w : Nat) (rem : List Char) (hrem : rem ≠ []) :
    (∃ screen, parseScreen w rem = some screen) ↔
      ∃ ws sg S, rem = '.' :: (ws ++ (sg ++ S)) ∧ (∀ c ∈ ws, isspace c = true) ∧
        (sg = [] ∨ sg = ['+'] ∨ sg = ['-']) ∧ S ≠ [] ∧ ∀ c ∈ S, isdigit c = true := by
  obtain ⟨c, dot1, rfl⟩ := List.exists_cons_of_ne_nil hrem
  constructor
  · rintro ⟨screen, h⟩
    simp only [parseScreen] at h
    by_cases hc : c = '.'
    · subst hc
      simp only [ne_eq, not_true_eq_false, if_false] at h
      split at h
      · cases h
      · rename_i h0
        have h1 : (strtoul w dot1).2 ≠ 0 := fun e => h0 (Or.inl e)
        have h2 : dot1.drop (strtoul w dot1).2 = [] := by
          by_contra e
          exact h0 (Or.inr e)
        obtain ⟨ws, sg, S, tail, e, hws, hsg, hS, hSd, ht⟩ := strtoul_consumed w dot1 h1
        have h3 := strtoul_shape w ws sg S tail hws hsg hS hSd ht
        rw [← e] at h3
        have h4 : dot1.drop (ws.length + sg.length + S.length) = tail := by
          rw [e, show ws ++ (sg ++ (S ++ tail)) = (ws ++ sg ++ S) ++ tail by simp,
            show ws.length + sg.length + S.length = (ws ++ sg ++ S).length by
              simp [Nat.add_assoc],
            List.drop_left]
        have h5 : (strtoul w dot1).2 = ws.length + sg.length + S.length := by rw [h3]
        rw [h5, h4] at h2
        refine ⟨ws, sg, S, ?_, hws, hsg, hS, hSd⟩
        rw [e, h2, List.append_nil]
    · simp [hc] at h
  · rintro ⟨ws, sg, S, e, hws, hsg, hS, hSd⟩
    obtain ⟨rfl, rfl⟩ := List.cons.inj e
    have h3 := strtoul_shape w ws sg S [] hws hsg hS hSd (by intro c t e; cases e)
    rw [List.append_nil] at h3
    have hSl : S.length ≠ 0 := by simpa using hS
    have h4 : (ws ++ (sg ++ S)).drop (ws.length + sg.length + S.length) = [] := by
      rw [show ws.length + sg.length + S.length = (ws ++ (sg ++ S)).length by
        simp [Nat.add_assoc], List.drop_length]
    refine ⟨toCInt (strtoul w (ws ++ (sg ++ S))).1, ?_⟩
    have h5 : (strtoul w (ws ++ (sg ++ S))).2 = ws.length + sg.length + S.length := by rw [h3]
    have h6 : ¬ (ws.length + sg.length + S.length = 0) := by omega
    simp only [parseScreen, ne_eq, not_true_eq_false, if_false, h5, h4, h6, or_self]

theorem parseScreen_last_digit (rem ws sg S : List Char)
    (e : rem = '.' :: (ws ++ (sg ++ S))) (hS : S ≠ []) (hSd : ∀ c ∈ S, isdigit c = true) :
    ∃ c, rem.getLast? = some c ∧ isdigit c = true := by
  refine ⟨S.getLast hS, ?_, hSd _ (List.getLast_mem hS)⟩
  subst e
  rw [show '.' :: (ws ++ (sg ++ S)) = ('.' :: ws ++ sg) ++ S by simp,
    List.getLast?_append_of_ne_nil _ hS, List.getLast?_eq_getLast _ hS]

theorem parseScreen_range (w : Nat) (dot : List Char) (s : Int)
    (h : parseScreen w dot = some s) : -2 ^ 31 ≤ s ∧ s < 2 ^ 31 := by
  cases dot with
  | nil =>
    simp only [parseScreen, Option.some.injEq] at h
    subst h
    norm_num
  | cons c dot1 =>
    simp only [parseScreen] at h
    split at h
    · cases h
    · split at h
      · cases h
      · simp only [Option.some.injEq] at h
        subst h
        exact toCInt_range _

/-- The numbers stored by a successful call are values of the 32-bit `int`. -/
theorem parse_success_range (E : Env) (name : Option (List Char)) (out res : Slots)
    (h : XCBParseDisplay E name out = (1, res)) :
    (-2 ^ 31 ≤ res.display ∧ res.display < 2 ^ 31) ∧
      ∀ s, res.screen = some s → -2 ^ 31 ≤ s ∧ s < 2 ^ 31 := by
  unfold XCBParseDisplay at h
  simp only at h
  split at h
  · cases h
  · split at h
    · cases h
    · split at h
      · cases h
      · split at h
        · cases h
        · rename_i screen hs
          split at h
          · cases h
          · obtain rfl := (Prod.mk.inj h).2
            dsimp only
            refine ⟨toCInt_range _, ?_⟩
            intro s e
            simp only [Option.map_eq_some'] at e
            obtain ⟨_, _, rfl⟩ := e
            exact parseScreen_range _ _ _ hs

theorem isspace_ne_colon (c : Char) (h : isspace c = true) : c ≠ ':' := by
  rintro rfl
  revert h
  decide

theorem not_colon_shape (ws sg D tail : List Char)
    (hws : ∀ c ∈ ws, isspace c = true) (hsg : sg = [] ∨ sg = ['+'] ∨ sg = ['-'])
    (hDd : ∀ c ∈ D, isdigit c = true) (hc : ':' ∉ tail) :
    ':' ∉ ws ++ (sg ++ (D ++ tail)) := by
  intro h
  rcases List.mem_append.1 h with h | h
  · exact isspace_ne_colon ':' (hws ':' h) rfl
  · rcases List.mem_append.1 h with h | h
    · rcases hsg with rfl | rfl | rfl
      · simp at h
      · exact absurd h (by decide)
      · exact absurd h (by decide)
    · rcases List.mem_append.1 h with h | h
      · exact not_colon_digits D hDd h
      · exact hc h

/-- The parser on a name whose text after the last colon is white space, an
optional sign, the display digits `D`, and a tail that does not start with a
digit. -/
theorem parse_signed (E : Env) (host ws sg D tail : List Char) (out : Slots)
    (hws : ∀ c ∈ ws, isspace c = true) (hsg : sg = [] ∨ sg = ['+'] ∨ sg = ['-'])
    (hD : D ≠ []) (hDd : ∀ c ∈ D, isdigit c = true)
    (ht : ∀ c t, tail = c :: t → isdigit c = false) (hc : ':' ∉ tail) :
    XCBParseDisplay E (some (host ++ ':' :: (ws ++ (sg ++ (D ++ tail))))) out =
      match parseScreen E.ulongBits tail with
      | none => ((0 : Int), out)
      | some screen =>
        if E.malloc (host.length + 1) = false then (0, { out with host := none })
        else (1, { host := some host,
                   display := toCInt ((if ULONG_MAX E.ulongBits < digitsValue D
                     then ULONG_MAX E.ulongBits
                     else if sg = ['-'] then (2 ^ E.ulongBits - digitsValue D) % 2 ^ E.ulongBits
                     else digitsValue D : Nat) : Int),
                   screen := out.screen.map (fun _ => screen) }) := by
  have h1 := strtoul_shape E.ulongBits ws sg D tail hws hsg hD hDd ht
  have hDl : D.length ≠ 0 := by simpa using hD
  have hlen : ¬ (ws.length + sg.length + D.length = 0) := by omega
  have hdrop : (ws ++ (sg ++ (D ++ tail))).drop (ws.length + sg.length + D.length) = tail := by
    rw [show ws ++ (sg ++ (D ++ tail)) = (ws ++ sg ++ D) ++ tail by simp,
      show ws.length + sg.length + D.length = (ws ++ sg ++ D).length by simp [Nat.add_assoc],
      List.drop_left]
  rw [parse_split E host _ out (not_colon_shape ws sg D tail hws hsg hDd hc), h1]
  simp only [hlen, if_false, hdrop]

/-- What `parseScreen` returns on a dot, white space, an optional sign and a
non-empty run of digits up to the end. -/
theorem parseScreen_shape (w : Nat) (ws sg S : List Char)
    (hws : ∀ c ∈ ws, isspace c = true) (hsg : sg = [] ∨ sg = ['+'] ∨ sg = ['-'])
    (hS : S ≠ []) (hSd : ∀ c ∈ S, isdigit c = true) :
    parseScreen w ('.' :: (ws ++ (sg ++ S))) =
      some (toCInt ((if ULONG_MAX w < digitsValue S then ULONG_MAX w
        else if sg = ['-'] then (2 ^ w - digitsValue S) % 2 ^ w
        else digitsValue S : Nat) : Int)) := by
  have h3 := strtoul_shape w ws sg S [] hws hsg hS hSd (by intro c t e; cases e)
  rw [List.append_nil] at h3
  have hSl : S.length ≠ 0 := by simpa using hS
  have h4 : (ws ++ (sg ++ S)).drop (ws.length + sg.length + S.length) = [] := by
    rw [show ws.length + sg.length + S.length = (ws ++ (sg ++ S)).length by
      simp [Nat.add_assoc], List.drop_length]
  have h6 : ¬ (ws.length + sg.length + S.length = 0) := by omega
  simp only [parseScreen, ne_eq, not_true_eq_false, if_false, h3, h4, h6, or_self]

/-- A call with a null or empty name runs on the value of `DISPLAY`. -/
theorem parse_effective (E : Env) (name : Option (List Char)) (n : List Char) (out : Slots)
    (hne : n ≠ [])
    (hn : name = some n ∨ ((name = none ∨ name = some []) ∧ E.DISPLAY = some n)) :
    XCBParseDisplay E name out = XCBParseDisplay E (some n) out := by
  rcases hn with rfl | ⟨h1, h2⟩
  · rfl
  · simp [XCBParseDisplay, h1, h2, hne]

/-! ## The display-name parser: claims -/

/-- C1, as stated, fails: `"host:2147483648.2"` has an alphanumeric host and
digit strings for display and screen, yet on an LP64 and on an ILP32 machine
the display number stored is -2147483648, not the value 2147483648 of the
digits; and when the allocation of the host buffer fails the call returns 0. -/
theorem parse_display_screen_counterexample :
    (∀ c ∈ "host".toList, isalnum c = true) ∧
    (∀ c ∈ "2147483648".toList, isdigit c = true) ∧
    (∀ c ∈ "2".toList, isdigit c = true) ∧
    XCBParseDisplay lp64
        (some ("host".toList ++ ':' :: ("2147483648".toList ++ '.' :: "2".toList))) slots0
      = (1, { host := some "host".toList, display := -2147483648, screen := some 2 }) ∧
    XCBParseDisplay ilp32
        (some ("host".toList ++ ':' :: ("2147483648".toList ++ '.' :: "2".toList))) slots0
      = (1, { host := some "host".toList, display := -2147483648, screen := some 2 }) ∧
    (-2147483648 : Int) ≠ (digitsValue "2147483648".toList : Int) ∧
    (XCBParseDisplay { lp64 with malloc := fun _ => false }
        (some "host:10.2".toList) slots0).1 = 0 := by
  decide

/-- C1 (amended): for every name `H ++ ":" ++ D ++ "." ++ S` with `H`
alphanumeric (possibly empty) and `D`, `S` non-empty strings of decimal digits
whose values are below `2^31`, when the host buffer is allocated,
`XCBParseDisplay` returns 1 with host `H`, display number the value of `D` and
screen number the value of `S` (stored when there is a screen slot). -/
theorem parse_display_screen_valid (E : Env) (H D S : List Char) (out : Slots)
    (hw : 32 ≤ E.ulongBits) (hm : E.malloc (H.length + 1) = true)
    (_hH : ∀ c ∈ H, isalnum c = true)
    (hD : D ≠ []) (hDd : ∀ c ∈ D, isdigit c = true)
    (hS : S ≠ []) (hSd : ∀ c ∈ S, isdigit c = true)
    (hDv : digitsValue D < 2 ^ 31) (hSv : digitsValue S < 2 ^ 31) :
    XCBParseDisplay E (some (H ++ ':' :: (D ++ '.' :: S))) out =
      (1, { host := some H, display := (digitsValue D : Int),
            screen := out.screen.map (fun _ => (digitsValue S : Int)) }) := by
  rw [parse_display_screen E H D S out hD hDd hS hSd]
  simp only [hm, Bool.true_eq_false, if_false, ulong_small _ _ hw hDv, ulong_small _ _ hw hSv,
    toCInt_small _ hDv, toCInt_small _ hSv]

/-- C1 (amended), at the witness of the claim: `"host:10.2"` yields host
`"host"`, display 10 and screen 2. -/
theorem parse_display_screen_valid_witness :
    XCBParseDisplay lp64 (some ("host".toList ++ ':' :: ("10".toList ++ '.' :: "2".toList)))
        slots0
      = (1, { host := some "host".toList, display := (digitsValue "10".toList : Int),
              screen := slots0.screen.map (fun _ => (digitsValue "2".toList : Int)) }) :=
  parse_display_screen_valid lp64 "host".toList "10".toList "2".toList slots0
    (by decide) (by decide) (by decide) (by decide) (by decide) (by decide) (by decide)
    (by decide) (by decide)

/-- C2, as stated, fails: `":4294967296"` is a colon followed by decimal digits
only, yet the display number stored is 0 on an LP64 machine and -1 on an ILP32
machine (where `strtoul` saturates), not the value 4294967296 of the digits. -/
theorem parse_display_only_counterexample :
    (∀ c ∈ "4294967296".toList, isdigit c = true) ∧
    XCBParseDisplay lp64 (some ([] ++ ':' :: "4294967296".toList)) slots0
      = (1, { host := some [], display := 0, screen := some 0 }) ∧
    XCBParseDisplay ilp32 (some ([] ++ ':' :: "4294967296".toList)) slots0
      = (1, { host := some [], display := -1, screen := some 0 }) ∧
    (0 : Int) ≠ (digitsValue "4294967296".toList : Int) ∧
    (-1 : Int) ≠ (digitsValue "4294967296".toList : Int) := by
  decide

/-- C2 (amended): for every name `H ++ ":" ++ D` with `H` alphanumeric (possibly
empty) and `D` a non-empty string of decimal digits whose value is below `2^31`,
when the host buffer is allocated, `XCBParseDisplay` returns 1 with host `H`,
display number the value of `D`, and screen number 0 (stored when there is a
screen slot). -/
theorem parse_display_only_valid (E : Env) (H D : List Char) (out : Slots)
    (hw : 32 ≤ E.ulongBits) (hm : E.malloc (H.length + 1) = true)
    (_hH : ∀ c ∈ H, isalnum c = true)
    (hD : D ≠ []) (hDd : ∀ c ∈ D, isdigit c = true)
    (hDv : digitsValue D < 2 ^ 31) :
    XCBParseDisplay E (some (H ++ ':' :: D)) out =
      (1, { host := some H, display := (digitsValue D : Int),
            screen := out.screen.map (fun _ => (0 : Int)) }) := by
  rw [parse_display_only E H D out hD hDd]
  simp only [hm, Bool.true_eq_false, if_false, ulong_small _ _ hw hDv, toCInt_small _ hDv]

/-- C2 (amended), at the witness of the claim: `":0"` yields the empty host,
display 0 and screen 0. -/
theorem parse_display_only_valid_witness :
    XCBParseDisplay lp64 (some ([] ++ ':' :: "0".toList)) slots0
      = (1, { host := some [], display := (digitsValue "0".toList : Int),
              screen := slots0.screen.map (fun _ => (0 : Int)) }) :=
  parse_display_only_valid lp64 [] "0".toList slots0
    (by decide) (by decide) (by decide) (by decide) (by decide) (by decide)

/-- C3: whenever `XCBParseDisplay` returns 1 on a non-empty name, the name is
`host ++ ":" ++ rest` with no colon in `rest` (the split is at the last colon),
the host stored is exactly `host`, and the display and screen numbers depend on
`rest` alone: the same call on any other host followed by `":" ++ rest` stores
the same numbers (when its host buffer is allocated). -/
theorem parse_splits_at_last_colon (E : Env) (name : List Char) (out res : Slots)
    (hne : name ≠ []) (h : XCBParseDisplay E (some name) out = (1, res)) :
    ∃ host rest, name = host ++ ':' :: rest ∧ ':' ∉ rest ∧ res.host = some host ∧
      ∀ host2, E.malloc (host2.length + 1) = true →
        XCBParseDisplay E (some (host2 ++ ':' :: rest)) out
          = (1, { res with host := some host2 }) := by
  cases hr : strrchr name ':' with
  | none =>
    simp [XCBParseDisplay, hne, hr] at h
  | some i =>
    obtain ⟨host, rest, rfl, hc, -⟩ := strrchr_some ':' name i hr
    refine ⟨host, rest, rfl, hc, ?_⟩
    rw [parse_split E host rest out hc] at h
    by_cases h0 : (strtoul E.ulongBits rest).2 = 0
    · simp [h0] at h
    · rw [if_neg h0] at h
      cases hs : parseScreen E.ulongBits (rest.drop (strtoul E.ulongBits rest).2) with
      | none => simp [hs] at h
      | some screen =>
        simp only [hs] at h
        by_cases hm : E.malloc (host.length + 1) = false
        · simp [hm] at h
        · rw [if_neg hm] at h
          obtain rfl := (Prod.mk.inj h).2
          refine ⟨rfl, ?_⟩
          intro host2 hm2
          rw [parse_split E host2 rest out hc, if_neg h0]
          simp only [hs, hm2, Bool.true_eq_false, if_false]

/-- C3, at the example of the claim: `"a:b:0"` yields the host `"a:b"`. -/
theorem parse_splits_at_last_colon_witness :
    ∃ host rest, "a:b:0".toList = host ++ ':' :: rest ∧ ':' ∉ rest ∧
      ({ host := some "a:b".toList, display := 0, screen := some 0 } : Slots).host = some host ∧
      ∀ host2, lp64.malloc (host2.length + 1) = true →
        XCBParseDisplay lp64 (some (host2 ++ ':' :: rest)) slots0
          = (1, { ({ host := some "a:b".toList, display := 0, screen := some 0 } : Slots)
                  with host := some host2 }) :=
  parse_splits_at_last_colon lp64 "a:b:0".toList slots0
    { host := some "a:b".toList, display := 0, screen := some 0 } (by decide) (by decide)

/-- C4: for every non-empty name without a colon `XCBParseDisplay` returns 0,
whatever the environment holds. -/
theorem parse_fails_without_colon (E : Env) (name : List Char) (out : Slots)
    (hne : name ≠ []) (hc : ':' ∉ name) :
    (XCBParseDisplay E (some name) out).1 = 0 := by
  simp [XCBParseDisplay, hne, strrchr_none ':' name hc]

/-- C4, at the witness of the claim: `"novalidcolon"` is rejected, here with
`DISPLAY` set to a valid name. -/
theorem parse_fails_without_colon_witness :
    (XCBParseDisplay { lp64 with DISPLAY := some ":0".toList }
      (some "novalidcolon".toList) slots0).1 = 0 :=
  parse_fails_without_colon { lp64 with DISPLAY := some ":0".toList }
    "novalidcolon".toList slots0 (by decide) (by decide)

/-- C5, as stated, fails: in `":+5"`, `": 7"` and `":-5"` the character right
after the last colon is not a decimal digit, yet `XCBParseDisplay` returns 1,
with display numbers 5, 7 and -5: `strtoul` skips white space and takes a
sign. -/
theorem parse_display_digits_counterexample :
    isdigit '+' = false ∧ isdigit ' ' = false ∧ isdigit '-' = false ∧
    XCBParseDisplay lp64 (some ":+5".toList) slots0
      = (1, { host := some [], display := 5, screen := some 0 }) ∧
    XCBParseDisplay lp64 (some ": 7".toList) slots0
      = (1, { host := some [], display := 7, screen := some 0 }) ∧
    XCBParseDisplay lp64 (some ":-5".toList) slots0
      = (1, { host := some [], display := -5, screen := some 0 }) ∧
    XCBParseDisplay ilp32 (some ":+5".toList) slots0
      = (1, { host := some [], display := 5, screen := some 0 }) := by
  decide

/-- C5 (amended): split a name at its last colon, `host ++ ":" ++ rest`.
If `rest` is empty, or its first character is neither a decimal digit nor white
space nor a sign `+` or `-`, `XCBParseDisplay` returns 0; more generally it
returns 0 whenever `rest` is not white space (possibly none), an optional sign
and a non-empty run of decimal digits, followed by anything.  If `rest` starts
with a decimal digit and the call returns 1, the display number is the value of
the longest leading run of decimal digits of `rest`, when that value is below
`2^31`. -/
theorem parse_display_digits (E : Env) (host rest : List Char) (out : Slots)
    (hc : ':' ∉ rest) :
    ((∀ c t, rest = c :: t → isdigit c = false ∧ isspace c = false ∧ c ≠ '+' ∧ c ≠ '-') →
      (XCBParseDisplay E (some (host ++ ':' :: rest)) out).1 = 0) ∧
    ((¬ ∃ ws sg D tail, rest = ws ++ (sg ++ (D ++ tail)) ∧ (∀ c ∈ ws, isspace c = true) ∧
        (sg = [] ∨ sg = ['+'] ∨ sg = ['-']) ∧ D ≠ [] ∧ ∀ c ∈ D, isdigit c = true) →
      (XCBParseDisplay E (some (host ++ ':' :: rest)) out).1 = 0) ∧
    (∀ D tail res, rest = D ++ tail → D ≠ [] → (∀ c ∈ D, isdigit c = true) →
      (∀ c t, tail = c :: t → isdigit c = false) →
      32 ≤ E.ulongBits → digitsValue D < 2 ^ 31 →
      XCBParseDisplay E (some (host ++ ':' :: rest)) out = (1, res) →
      res.display = (digitsValue D : Int)) := by
  refine ⟨?_, ?_, ?_⟩
  · intro h
    rw [parse_split E host rest out hc, if_pos (strtoul_no_conversion _ rest h)]
  · intro h
    by_cases h0 : (strtoul E.ulongBits rest).2 = 0
    · rw [parse_split E host rest out hc, if_pos h0]
    · obtain ⟨ws, sg, D, tail, e, hws, hsg, hD, hDd, -⟩ := strtoul_consumed _ rest h0
      exact absurd ⟨ws, sg, D, tail, e, hws, hsg, hD, hDd⟩ h
  · intro D tail res e hD hDd ht hw hDv h
    subst e
    have h1 := strtoul_digits E.ulongBits D tail hD hDd ht
    rw [parse_split E host _ out hc, h1] at h
    simp only [ulong_small _ _ hw hDv, if_false, toCInt_small _ hDv] at h
    split at h
    · cases h
    · split at h
      · cases h
      · split at h
        · cases h
        · obtain rfl := (Prod.mk.inj h).2
          rfl

/-- C5 (amended), at the witness of the claim and at a name with display
digits: `":"` is rejected, and `"h:12.3"`, which is accepted, has display 12. -/
theorem parse_display_digits_witness :
    (XCBParseDisplay lp64 (some ([] ++ ':' :: [])) slots0).1 = 0 ∧
    ({ host := some "h".toList, display := 12, screen := some 3 } : Slots).display
      = (digitsValue "12".toList : Int) :=
  ⟨(parse_display_digits lp64 [] [] slots0 (by decide)).1 (by intro c t e; cases e),
   (parse_display_digits lp64 "h".toList "12.3".toList slots0 (by decide)).2.2
     "12".toList ".3".toList { host := some "h".toList, display := 12, screen := some 3 }
     (by decide) (by decide) (by decide) (by intro c t e; cases e; decide)
     (by decide) (by decide) (by decide)⟩

/-- C6, as stated, fails: in `":0.+5"`, `":0. 5"` and `":0.-1"` the text after
the display digits is a dot followed by a character that is not a digit, yet
`XCBParseDisplay` returns 1, with screen numbers 5, 5 and -1. -/
theorem parse_screen_part_counterexample :
    isdigit '+' = false ∧ isdigit ' ' = false ∧ isdigit '-' = false ∧
    XCBParseDisplay lp64 (some ":0.+5".toList) slots0
      = (1, { host := some [], display := 0, screen := some 5 }) ∧
    XCBParseDisplay lp64 (some ":0. 5".toList) slots0
      = (1, { host := some [], display := 0, screen := some 5 }) ∧
    XCBParseDisplay lp64 (some ":0.-1".toList) slots0
      = (1, { host := some [], display := 0, screen := some (-1) }) ∧
    XCBParseDisplay ilp32 (some ":0.-1".toList) slots0
      = (1, { host := some [], display := 0, screen := some (-1) }) := by
  decide

/-- C6 (amended): let the text after the last colon of the name be the display
digits `D`, possibly preceded by white space `ws` and a sign `sg` as `strtoul`
accepts them, followed by a non-empty remainder `rem` without colon that does
not start with a digit.  When `rem` is a dot, then white space (possibly none),
then an optional sign `+` or `-`, then a non-empty run of decimal digits up to
the end of the string, `XCBParseDisplay` returns 1 (the host buffer being
allocated); for every other `rem` it returns 0. -/
theorem parse_screen_part (E : Env) (host ws sg D rem : List Char) (out : Slots)
    (hws : ∀ c ∈ ws, isspace c = true) (hsg : sg = [] ∨ sg = ['+'] ∨ sg = ['-'])
    (hD : D ≠ []) (hDd : ∀ c ∈ D, isdigit c = true)
    (hrem : rem ≠ []) (hc : ':' ∉ rem) (hhd : ∀ c t, rem = c :: t → isdigit c = false) :
    ((∃ ws2 sg2 S, rem = '.' :: (ws2 ++ (sg2 ++ S)) ∧ (∀ c ∈ ws2, isspace c = true) ∧
        (sg2 = [] ∨ sg2 = ['+'] ∨ sg2 = ['-']) ∧ S ≠ [] ∧ ∀ c ∈ S, isdigit c = true) →
      E.malloc (host.length + 1) = true →
      (XCBParseDisplay E (some (host ++ ':' :: (ws ++ (sg ++ (D ++ rem))))) out).1 = 1) ∧
    ((¬ ∃ ws2 sg2 S, rem = '.' :: (ws2 ++ (sg2 ++ S)) ∧ (∀ c ∈ ws2, isspace c = true) ∧
        (sg2 = [] ∨ sg2 = ['+'] ∨ sg2 = ['-']) ∧ S ≠ [] ∧ ∀ c ∈ S, isdigit c = true) →
      (XCBParseDisplay E (some (host ++ ':' :: (ws ++ (sg ++ (D ++ rem))))) out).1 = 0) := by
  have hp := parse_signed E host ws sg D rem out hws hsg hD hDd hhd hc
  have hiff := parseScreen_isSome_iff E.ulongBits rem hrem
  constructor
  · intro hshape hm
    obtain ⟨screen, hs⟩ := hiff.2 hshape
    rw [hp, hs]
    simp [hm]
  · intro hshape
    cases hs : parseScreen E.ulongBits rem with
    | none => rw [hp, hs]
    | some screen => exact absurd (hiff.1 ⟨screen, hs⟩) hshape

/-- C6 (amended), at the witnesses of the claim: `"h:1."` and `"h:1.x"` are
rejected and `"h:1.5"` is accepted; with white space before the display digits,
`": 7.x"` is rejected and `": 7.5"` is accepted. -/
theorem parse_screen_part_witness :
    (XCBParseDisplay lp64 (some "h:1.".toList) slots0).1 = 0 ∧
    (XCBParseDisplay lp64 (some "h:1.x".toList) slots0).1 = 0 ∧
    (XCBParseDisplay lp64 (some "h:1.5".toList) slots0).1 = 1 ∧
    (XCBParseDisplay lp64 (some ": 7.x".toList) slots0).1 = 0 ∧
    (XCBParseDisplay lp64 (some ": 7.5".toList) slots0).1 = 1 :=
  ⟨(parse_screen_part lp64 "h".toList [] [] "1".toList ".".toList slots0 (by decide)
      (by decide) (by decide) (by decide) (by decide) (by decide)
      (by intro c t e; cases e; decide)).2
      (by
        rintro ⟨ws, sg, S, e, -, -, hS, hSd⟩
        obtain ⟨c, h1, h2⟩ := parseScreen_last_digit _ ws sg S e hS hSd
        obtain rfl : '.' = c := by simpa using h1
        exact absurd h2 (by decide)),
   (parse_screen_part lp64 "h".toList [] [] "1".toList ".x".toList slots0 (by decide)
      (by decide) (by decide) (by decide) (by decide) (by decide)
      (by intro c t e; cases e; decide)).2
      (by
        rintro ⟨ws, sg, S, e, -, -, hS, hSd⟩
        obtain ⟨c, h1, h2⟩ := parseScreen_last_digit _ ws sg S e hS hSd
        obtain rfl : 'x' = c := by simpa using h1
        exact absurd h2 (by decide)),
   (parse_screen_part lp64 "h".toList [] [] "1".toList ".5".toList slots0 (by decide)
      (by decide) (by decide) (by decide) (by decide) (by decide)
      (by intro c t e; cases e; decide)).1
      ⟨[], [], "5".toList, by decide, by decide, by decide, by decide, by decide⟩
      (by decide),
   (parse_screen_part lp64 [] " ".toList [] "7".toList ".x".toList slots0 (by decide)
      (by decide) (by decide) (by decide) (by decide) (by decide)
      (by intro c t e; cases e; decide)).2
      (by
        rintro ⟨ws, sg, S, e, -, -, hS, hSd⟩
        obtain ⟨c, h1, h2⟩ := parseScreen_last_digit _ ws sg S e hS hSd
        obtain rfl : 'x' = c := by simpa using h1
        exact absurd h2 (by decide)),
   (parse_screen_part lp64 [] " ".toList [] "7".toList ".5".toList slots0 (by decide)
      (by decide) (by decide) (by decide) (by decide) (by decide)
      (by intro c t e; cases e; decide)).1
      ⟨[], [], "5".toList, by decide, by decide, by decide, by decide, by decide⟩
      (by decide)⟩

/-- C7: when the name is the null pointer or the empty string and `DISPLAY` is
not set, `XCBParseDisplay` returns 0. -/
theorem parse_fails_without_source (E : Env) (name : Option (List Char)) (out : Slots)
    (hn : name = none ∨ name = some []) (he : E.DISPLAY = none) :
    (XCBParseDisplay E name out).1 = 0 := by
  simp [XCBParseDisplay, hn, he]

/-- C7, for the null pointer and for the empty string. -/
theorem parse_fails_without_source_witness :
    (XCBParseDisplay lp64 none slots0).1 = 0 ∧ (XCBParseDisplay lp64 (some []) slots0).1 = 0 :=
  ⟨parse_fails_without_source lp64 none slots0 (Or.inl rfl) rfl,
   parse_fails_without_source lp64 (some []) slots0 (Or.inr rfl) rfl⟩

/-- C8: when the name is the null pointer or the empty string and `DISPLAY` is
the non-empty string `e`, `XCBParseDisplay` returns what it returns for the name
`e` itself, the returned flag and the stored host, display and screen alike, and
the latter does not depend on what `DISPLAY` then holds. -/
theorem parse_env_fallback (E : Env) (name : Option (List Char)) (e : List Char)
    (out : Slots) (hn : name = none ∨ name = some []) (he : E.DISPLAY = some e)
    (hne : e ≠ []) (env2 : Option (List Char)) :
    XCBParseDisplay E name out = XCBParseDisplay { E with DISPLAY := env2 } (some e) out := by
  simp [XCBParseDisplay, hn, he, hne]

/-- C8, with `DISPLAY` set to `"host:10.2"`: the null name gives the result of
the name `"host:10.2"`. -/
theorem parse_env_fallback_witness :
    XCBParseDisplay { lp64 with DISPLAY := some "host:10.2".toList } none slots0
      = XCBParseDisplay { { lp64 with DISPLAY := some "host:10.2".toList } with DISPLAY := none }
          (some "host:10.2".toList) slots0 :=
  parse_env_fallback { lp64 with DISPLAY := some "host:10.2".toList } none
    "host:10.2".toList slots0 (Or.inl rfl) rfl (by decide) none

/-- C9, as stated, fails: `XCBParseDisplay` returns 1 on `":3000000000"` with
the display number -1294967296 (on LP64 and on ILP32 alike) and on
`":0.4294967295"` with the screen number -1, because the `unsigned long` that
`strtoul` returns is stored in an `int`; and it returns 1 on `":-7"` with the
display number -7 and on `":0.-1"` with the screen number -1, because `strtoul`
takes a minus sign. -/
theorem parse_numbers_counterexample :
    (∀ c ∈ "3000000000".toList, isdigit c = true) ∧
    XCBParseDisplay lp64 (some ":3000000000".toList) slots0
      = (1, { host := some [], display := -1294967296, screen := some 0 }) ∧
    XCBParseDisplay ilp32 (some ":3000000000".toList) slots0
      = (1, { host := some [], display := -1294967296, screen := some 0 }) ∧
    XCBParseDisplay lp64 (some ":0.4294967295".toList) slots0
      = (1, { host := some [], display := 0, screen := some (-1) }) ∧
    XCBParseDisplay ilp32 (some ":0.4294967295".toList) slots0
      = (1, { host := some [], display := 0, screen := some (-1) }) ∧
    XCBParseDisplay lp64 (some ":-7".toList) slots0
      = (1, { host := some [], display := -7, screen := some 0 }) ∧
    XCBParseDisplay ilp32 (some ":-7".toList) slots0
      = (1, { host := some [], display := -7, screen := some 0 }) ∧
    XCBParseDisplay lp64 (some ":0.-1".toList) slots0
      = (1, { host := some [], display := 0, screen := some (-1) }) ∧
    ¬ ((0 : Int) ≤ -1294967296) ∧ ¬ ((0 : Int) ≤ -7) ∧ ¬ ((0 : Int) ≤ -1) := by
  decide

/-- C9 (amended): whenever `XCBParseDisplay` returns 1, for every input (the
name, or `DISPLAY` when the name is null or empty), with the text after the
last colon made of white space `ws`, a sign `sg`, the display digits `D` and a
tail: the display number is the value of `D`, a non-negative integer, unless
the sign is a minus or the value is `2^31` or more; the screen number is 0 when
the tail is empty; and when the tail is a dot, white space, a sign and the
screen digits `S`, the screen number is the value of `S`, a non-negative
integer, unless that sign is a minus or the value is `2^31` or more. -/
theorem parse_numbers_nonneg (E : Env) (name : Option (List Char)) (n : List Char)
    (out res : Slots) (host ws sg D tail : List Char)
    (hn : name = some n ∨ ((name = none ∨ name = some []) ∧ E.DISPLAY = some n))
    (e : n = host ++ ':' :: (ws ++ (sg ++ (D ++ tail))))
    (hws : ∀ c ∈ ws, isspace c = true) (hsg : sg = [] ∨ sg = ['+'] ∨ sg = ['-'])
    (hD : D ≠ []) (hDd : ∀ c ∈ D, isdigit c = true)
    (ht : ∀ c t, tail = c :: t → isdigit c = false) (hc : ':' ∉ tail)
    (hw : 32 ≤ E.ulongBits)
    (h : XCBParseDisplay E name out = (1, res)) :
    (sg ≠ ['-'] → digitsValue D < 2 ^ 31 →
      res.display = (digitsValue D : Int) ∧ 0 ≤ res.display) ∧
    (tail = [] → ∀ s, res.screen = some s → s = 0) ∧
    (∀ ws2 sg2 S, tail = '.' :: (ws2 ++ (sg2 ++ S)) → (∀ c ∈ ws2, isspace c = true) →
      (sg2 = [] ∨ sg2 = ['+']) → S ≠ [] → (∀ c ∈ S, isdigit c = true) →
      digitsValue S < 2 ^ 31 →
      ∀ s, res.screen = some s → s = (digitsValue S : Int) ∧ 0 ≤ s) := by
  subst e
  rw [parse_effective E name _ out (by simp) hn,
    parse_signed E host ws sg D tail out hws hsg hD hDd ht hc] at h
  cases hs : parseScreen E.ulongBits tail with
  | none =>
    rw [hs] at h
    cases h
  | some screen =>
    rw [hs] at h
    simp only at h
    split at h
    · cases h
    · obtain rfl := (Prod.mk.inj h).2
      refine ⟨?_, ?_, ?_⟩
      · intro hsign hDv
        simp only [ulong_small _ _ hw hDv, hsign, if_false, toCInt_small _ hDv]
        exact ⟨trivial, Int.ofNat_nonneg _⟩
      · intro et s es
        subst et
        simp only [parseScreen, Option.some.injEq] at hs
        simp only [Option.map_eq_some'] at es
        obtain ⟨_, _, rfl⟩ := es
        exact hs.symm
      · intro ws2 sg2 S et hws2 hsg2 hS hSd hSv s es
        subst et
        have hsg3 : sg2 = [] ∨ sg2 = ['+'] ∨ sg2 = ['-'] := by
          rcases hsg2 with h1 | h1
          · exact Or.inl h1
          · exact Or.inr (Or.inl h1)
        have hminus : sg2 ≠ ['-'] := by
          rcases hsg2 with rfl | rfl <;> decide
        rw [parseScreen_shape E.ulongBits ws2 sg2 S hws2 hsg3 hS hSd] at hs
        simp only [ulong_small _ _ hw hSv, hminus, if_false, toCInt_small _ hSv,
          Option.some.injEq] at hs
        simp only [Option.map_eq_some'] at es
        obtain ⟨_, _, rfl⟩ := es
        exact ⟨hs.symm, hs ▸ Int.ofNat_nonneg _⟩

/-- C9 (amended), at `"h: +10. 2"`, given as the name and through `DISPLAY`:
display 10 and screen 2 are the values of the digits and non-negative. -/
theorem parse_numbers_nonneg_witness :
    ((10 : Int) = (digitsValue "10".toList : Int) ∧ (0 : Int) ≤ 10) ∧
    (∀ s, some (2 : Int) = some s → s = (digitsValue "2".toList : Int) ∧ 0 ≤ s) ∧
    ((10 : Int) = (digitsValue "10".toList : Int) ∧ (0 : Int) ≤ 10) :=
  have h1 := parse_numbers_nonneg lp64 (some "h: +10. 2".toList) "h: +10. 2".toList slots0
    { host := some "h".toList, display := 10, screen := some 2 }
    "h".toList " ".toList "+".toList "10".toList ". 2".toList
    (Or.inl rfl) (by decide) (by decide) (by decide) (by decide) (by decide)
    (by intro c t e; cases e; decide) (by decide) (by decide) (by decide)
  have h2 := parse_numbers_nonneg { lp64 with DISPLAY := some "h: +10. 2".toList } none
    "h: +10. 2".toList slots0
    { host := some "h".toList, display := 10, screen := some 2 }
    "h".toList " ".toList "+".toList "10".toList ". 2".toList
    (Or.inr ⟨Or.inl rfl, rfl⟩) (by decide) (by decide) (by decide) (by decide) (by decide)
    (by intro c t e; cases e; decide) (by decide) (by decide) (by decide)
  ⟨h1.1 (by decide) (by decide),
   h1.2.2 " ".toList [] "2".toList (by decide) (by decide) (by decide) (by decide)
     (by decide) (by decide),
   h2.1 (by decide) (by decide)⟩

/-! ## Transport selection: claims -/

/-- C10, as stated, fails: the parser yields display 59536 for
`"example:59536"`, and for host `"example"` and that display `_xcb_open`
connects to port 0, not to 6000 + 59536 = 65536; for display -1, which the
parser yields for `"example:-1"`, the port is 5999 only because the sum did not
leave the 16 bits of `unsigned short`. -/
theorem xcb_open_tcp_port_counterexample :
    XCBParseDisplay lp64 (some "example:59536".toList) slots0
      = (1, { host := some "example".toList, display := 59536, screen := some 0 }) ∧
    "example".toList ≠ [] ∧
    _xcb_open sysOk "example".toList 59536
      = (3, [Event.gethostbyname "example".toList true, Event.socket Family.inet 3,
             Event.connect 3 (SockAddr.inet 0 7) 0]) ∧
    (0 : Int) ≠ 6000 + 59536 := by
  decide

/-- C10 (amended): for every non-empty host and every display number `d`,
`_xcb_open` calls the TCP opener with the port `(6000 + d) mod 2^16`, the value
of `X_TCP_PORT + d` in an `unsigned short`: every `connect` it makes is to an
IPv4 address with that port, and it makes one when the host resolves and the
socket is created.  The port is `6000 + d` itself when `-6000 ≤ d ≤ 59535`. -/
theorem xcb_open_tcp_port (S : Sys) (host : List Char) (d : Int) (hh : host ≠ []) :
    _xcb_open S host d = _xcb_open_tcp S host ((6000 + d) % 2 ^ 16).toNat ∧
    (∀ fd addr r, Event.connect fd addr r ∈ (_xcb_open S host d).2 →
      ∃ a, addr = SockAddr.inet ((6000 + d) % 2 ^ 16).toNat a) ∧
    (∀ a, S.gethostbyname host = some a → S.socket Family.inet ≠ -1 →
      ∃ r, Event.connect (S.socket Family.inet)
        (SockAddr.inet ((6000 + d) % 2 ^ 16).toNat a) r ∈ (_xcb_open S host d).2) ∧
    (-6000 ≤ d → d ≤ 59535 → (((6000 + d) % 2 ^ 16).toNat : Int) = 6000 + d) := by
  have h1 : _xcb_open S host d = _xcb_open_tcp S host ((6000 + d) % 2 ^ 16).toNat := by
    simp [_xcb_open, hh, X_TCP_PORT]
  refine ⟨h1, ?_, ?_, ?_⟩
  · intro fd addr r hmem
    rw [h1] at hmem
    unfold _xcb_open_tcp at hmem
    cases hg : S.gethostbyname host with
    | none => simp [hg] at hmem
    | some a =>
      simp only [hg] at hmem
      refine ⟨a, ?_⟩
      split at hmem
      · simp at hmem
      · split at hmem
        · simp at hmem
          exact hmem.2.1
        · simp at hmem
          exact hmem.2.1
  · intro a hg hs
    rw [h1]
    unfold _xcb_open_tcp
    simp only [hg, hs, if_false]
    split
    · exact ⟨-1, by simp⟩
    · exact ⟨S.connect (S.socket Family.inet)
        (SockAddr.inet ((6000 + d) % 2 ^ 16).toNat a), by simp⟩
  · intro hlo hhi
    have h2 : (6000 + d) % 2 ^ 16 = 6000 + d := by
      apply Int.emod_eq_of_lt <;> omega
    rw [h2]
    exact Int.toNat_of_nonneg (by omega)

/-- C10 (amended), at the witness of the claim: host `"example"` and display 3
give port 6003. -/
theorem xcb_open_tcp_port_witness :
    _xcb_open sysOk "example".toList 3 = _xcb_open_tcp sysOk "example".toList 6003 :=
  (xcb_open_tcp_port sysOk "example".toList 3 (by decide)).1

/-! ## Lemmas on the decimal rendering -/

theorem digitChar_digit : ∀ d, d < 10 →
    isdigit (Nat.digitChar d) = true ∧ (Nat.digitChar d).toNat - 48 = d := by
  decide

theorem digitsValue_snoc (l : List Char) (c : Char) :
    digitsValue (l ++ [c]) = 10 * digitsValue l + (c.toNat - 48) := by
  simp [digitsValue, List.foldl_append]

/-- What `Nat.toDigitsCore` puts in front of the digits already there: a
non-empty string of decimal digits with the value `n` and no more digits than
`n` needs. -/
theorem toDigitsCore_spec (fuel n : Nat) (ds : List Char) (h : n < fuel) :
    ∃ l, Nat.toDigitsCore 10 fuel n ds = l ++ ds ∧ l ≠ [] ∧
      (∀ c ∈ l, isdigit c = true) ∧ digitsValue l = n ∧
      (l.length = 1 ∨ 10 ^ (l.length - 1) ≤ n) := by
  induction fuel generalizing n ds with
  | zero => omega
  | succ fuel ih =>
    obtain ⟨hd1, hd2⟩ := digitChar_digit (n % 10) (Nat.mod_lt n (by norm_num))
    by_cases h0 : n / 10 = 0
    · refine ⟨[Nat.digitChar (n % 10)], by simp [Nat.toDigitsCore, h0], by simp, ?_, ?_,
        Or.inl rfl⟩
      · intro c hc
        rw [List.mem_singleton.1 hc]
        exact hd1
      · have := digitsValue_snoc [] (Nat.digitChar (n % 10))
        simp only [List.nil_append] at this
        rw [this, hd2]
        simp only [digitsValue, List.foldl_nil]
        omega
    · obtain ⟨l, e, _, hl, hv, hlen⟩ :=
        ih (n / 10) (Nat.digitChar (n % 10) :: ds) (by omega)
      refine ⟨l ++ [Nat.digitChar (n % 10)], by simp [Nat.toDigitsCore, h0, e], by simp,
        ?_, ?_, Or.inr ?_⟩
      · intro c hc
        rcases List.mem_append.1 hc with hc | hc
        · exact hl c hc
        · rw [List.mem_singleton.1 hc]
          exact hd1
      · rw [digitsValue_snoc, hv, hd2]
        omega
      · simp only [List.length_append, List.length_singleton, Nat.add_sub_cancel]
        rcases hlen with h1 | h1
        · rw [h1]
          omega
        · have hpos : 0 < l.length := by
            cases l with
            | nil => simp at *
            | cons c t => simp
          have : 10 ^ l.length = 10 ^ (l.length - 1) * 10 := by
            rw [← Nat.pow_succ]
            congr 1
            omega
          omega

/-- The decimal rendering of `n`: a non-empty string of decimal digits, with
the value `n`, of at most 10 characters when `n ≤ 2^31`. -/
theorem repr_spec (n : Nat) :
    (Nat.repr n).toList ≠ [] ∧ (∀ c ∈ (Nat.repr n).toList, isdigit c = true) ∧
      digitsValue (Nat.repr n).toList = n ∧
      (n ≤ 2 ^ 31 → (Nat.repr n).toList.length ≤ 10) := by
  obtain ⟨l, e, hne, hl, hv, hlen⟩ := toDigitsCore_spec (n + 1) n [] (by omega)
  have e2 : (Nat.repr n).toList = l := by
    simp [Nat.repr, Nat.toDigits, e, List.asString, String.toList]
  rw [e2]
  refine ⟨hne, hl, hv, ?_⟩
  intro hn
  rcases hlen with h1 | h1
  · omega
  · by_contra hc
    have h2 : 10 ^ 10 ≤ 10 ^ (l.length - 1) := Nat.pow_le_pow_right (by norm_num) (by omega)
    have h3 : (2 : Nat) ^ 31 < 10 ^ 10 := by norm_num
    omega

/-- The conversion `%d` of an `int` takes at most 11 characters. -/
theorem fmtInt_length (d : Int) (hlo : -2 ^ 31 ≤ d) (hhi : d < 2 ^ 31) :
    (fmtInt d).length ≤ 11 := by
  unfold fmtInt
  split
  · have h := (repr_spec (-d).toNat).2.2.2 (by omega)
    simp only [List.length_cons]
    omega
  · have h := (repr_spec d.toNat).2.2.2 (by omega)
    omega

theorem fmtInt_nonneg (d : Int) (h : 0 ≤ d) :
    fmtInt d ≠ [] ∧ (∀ c ∈ fmtInt d, isdigit c = true) ∧ (digitsValue (fmtInt d) : Int) = d := by
  have e : fmtInt d = (Nat.repr d.toNat).toList := by
    unfold fmtInt
    rw [if_neg (by omega)]
  obtain ⟨h1, h2, h3, -⟩ := repr_spec d.toNat
  rw [e, h3]
  exact ⟨h1, h2, Int.toNat_of_nonneg h⟩

/-- With the empty host `_xcb_open` calls the Unix-domain opener on the path
`snprintf` leaves in `file`, which for an `int` display is the whole of `base`
followed by the `%d` conversion. -/
theorem xcb_open_empty_host (S : Sys) (d : Int) (hlo : -2 ^ 31 ≤ d) (hhi : d < 2 ^ 31) :
    _xcb_open S [] d = _xcb_open_unix S (base ++ fmtInt d) := by
  have h := fmtInt_length d hlo hhi
  have hb : base.length = 16 := by decide
  have ht : (base ++ fmtInt d).take ((base.length + 1) + 20 - 1) = base ++ fmtInt d := by
    apply List.take_of_length_le
    rw [List.length_append, hb]
    omega
  simp only [_xcb_open, ne_eq, not_true_eq_false, if_false, ht]

theorem xcb_open_unix_connects (S : Sys) (file : List Char) (fd : Int) (addr : SockAddr)
    (r : Int) (h : Event.connect fd addr r ∈ (_xcb_open_unix S file).2) :
    addr = SockAddr.unix file := by
  unfold _xcb_open_unix at h
  simp only at h
  split at h
  · simp at h
  · split at h
    · simp at h
      exact h.2.1
    · simp at h
      exact h.2.1

/-! ## Transport selection and connection: further claims -/

/-- C11: for the empty host and every `int` display number `d`, `_xcb_open`
calls the Unix-domain opener with exactly `"/tmp/.X11-unix/X"` followed by the
decimal rendering of `d` (the `%d` conversion; for `d ≥ 0` a non-empty string of
decimal digits with the value `d`), and every `connect` it makes is to that
path. -/
theorem xcb_open_unix_path (S : Sys) (d : Int) (hlo : -2 ^ 31 ≤ d) (hhi : d < 2 ^ 31) :
    _xcb_open S [] d = _xcb_open_unix S ("/tmp/.X11-unix/X".toList ++ fmtInt d) ∧
    (∀ fd addr r, Event.connect fd addr r ∈ (_xcb_open S [] d).2 →
      addr = SockAddr.unix ("/tmp/.X11-unix/X".toList ++ fmtInt d)) ∧
    (0 ≤ d → fmtInt d ≠ [] ∧ (∀ c ∈ fmtInt d, isdigit c = true) ∧
      (digitsValue (fmtInt d) : Int) = d) := by
  have h1 := xcb_open_empty_host S d hlo hhi
  refine ⟨h1, ?_, fmtInt_nonneg d⟩
  intro fd addr r hm
  rw [h1] at hm
  exact xcb_open_unix_connects S _ fd addr r hm

/-- C11, at the witness of the claim: display 7 gives `"/tmp/.X11-unix/X7"`. -/
theorem xcb_open_unix_path_witness :
    _xcb_open sysOk [] 7 = _xcb_open_unix sysOk ("/tmp/.X11-unix/X".toList ++ fmtInt 7) ∧
    "/tmp/.X11-unix/X".toList ++ fmtInt 7 = "/tmp/.X11-unix/X7".toList :=
  ⟨(xcb_open_unix_path sysOk 7 (by decide) (by decide)).1, by decide⟩

/-- C12: for every display name, if `XCBParseDisplay` returns 0 or `_xcb_open`
returns -1, then `XCBConnect` and `XCBConnectToDisplayWithAuthInfo` return the
null connection and make no call of `XCBConnectToFD`. -/
theorem connect_fails_without_transport (E : Env) (S : Sys) (P : Proto)
    (name : Option (List Char)) (auth : XCBAuthInfo) (host0 : Option (List Char))
    (screen0 : Option Int)
    (h : (XCBParseDisplay E name { host := host0, display := 0, screen := screen0 }).1 = 0 ∨
      (_xcb_open S
        ((XCBParseDisplay E name { host := host0, display := 0, screen := screen0 }).2.host.getD [])
        (XCBParseDisplay E name { host := host0, display := 0, screen := screen0 }).2.display).1
        = -1) :
    (XCBConnect E S P name host0 screen0).conn = none ∧
    (∀ fd a, ProtoCall.connectToFD fd a ∉ (XCBConnect E S P name host0 screen0).proto) ∧
    (XCBConnectToDisplayWithAuthInfo E S P name auth host0 screen0).conn = none ∧
    (∀ fd a, ProtoCall.connectToFD fd a ∉
      (XCBConnectToDisplayWithAuthInfo E S P name auth host0 screen0).proto) := by
  unfold XCBConnect XCBConnectToDisplayWithAuthInfo
  by_cases h0 : (XCBParseDisplay E name { host := host0, display := 0, screen := screen0 }).1 = 0
  · simp [h0]
  · rcases h with h | h
    · exact absurd h h0
    · simp [h0, h]

/-- C12, for a name without colon (the parse fails) and for `":0"` on a system
whose `connect` fails (the open fails). -/
theorem connect_fails_without_transport_witness :
    ((XCBConnect lp64 sysOk protoOk (some "nocolon".toList) none (some 0)).conn = none ∧
     (∀ fd a, ProtoCall.connectToFD fd a ∉
        (XCBConnect lp64 sysOk protoOk (some "nocolon".toList) none (some 0)).proto) ∧
     (XCBConnectToDisplayWithAuthInfo lp64 sysOk protoOk (some "nocolon".toList)
        { name := [], data := [] } none (some 0)).conn = none ∧
     (∀ fd a, ProtoCall.connectToFD fd a ∉
        (XCBConnectToDisplayWithAuthInfo lp64 sysOk protoOk (some "nocolon".toList)
          { name := [], data := [] } none (some 0)).proto)) ∧
    ((XCBConnect lp64 sysRefused protoOk (some ":0".toList) none (some 0)).conn = none ∧
     (∀ fd a, ProtoCall.connectToFD fd a ∉
        (XCBConnect lp64 sysRefused protoOk (some ":0".toList) none (some 0)).proto) ∧
     (XCBConnectToDisplayWithAuthInfo lp64 sysRefused protoOk (some ":0".toList)
        { name := [], data := [] } none (some 0)).conn = none ∧
     (∀ fd a, ProtoCall.connectToFD fd a ∉
        (XCBConnectToDisplayWithAuthInfo lp64 sysRefused protoOk (some ":0".toList)
          { name := [], data := [] } none (some 0)).proto)) :=
  ⟨connect_fails_without_transport lp64 sysOk protoOk (some "nocolon".toList)
      { name := [], data := [] } none (some 0) (Or.inl (by decide)),
   connect_fails_without_transport lp64 sysRefused protoOk (some ":0".toList)
      { name := [], data := [] } none (some 0) (Or.inr (by decide))⟩

/-! ## Lemmas on the octal digits of a mask -/

theorem and_block (k a b c d : Nat) (ha : a < 2 ^ k) (hc : c < 2 ^ k) :
    (2 ^ k * b + a) &&& (2 ^ k * d + c) = 2 ^ k * (b &&& d) + (a &&& c) := by
  apply Nat.eq_of_testBit_eq
  intro j
  rw [Nat.testBit_and, Nat.testBit_mul_pow_two_add _ ha, Nat.testBit_mul_pow_two_add _ hc,
    Nat.testBit_mul_pow_two_add _ (Nat.and_lt_two_pow a hc)]
  split <;> simp

theorem and_three (a : Nat) : a &&& 3 = a % 4 := by
  have h := Nat.and_pow_two_sub_one_eq_mod a 2
  simpa using h

theorem and_seven (a : Nat) : a &&& 7 = a % 8 := by
  have h := Nat.and_pow_two_sub_one_eq_mod a 3
  simpa using h

theorem shiftRight_one (x : Nat) : x >>> 1 = x / 2 := by
  rw [Nat.shiftRight_eq_div_pow, Nat.pow_one]

theorem shiftRight_three (x : Nat) : x >>> 3 = x / 8 := by
  rw [Nat.shiftRight_eq_div_pow]

/-- Shifting right by one and masking with `033...3` halves every octal digit. -/
theorem shift_mask_halves (k x : Nat) :
    (x >>> 1) &&& octMask k = mapOct (fun d => d / 2) k x := by
  induction k generalizing x with
  | zero => simp [octMask, mapOct]
  | succ k ih =>
    have e1 : x >>> 1 = 2 ^ 3 * ((x / 8) >>> 1) + (x / 2 % 8) := by
      rw [shiftRight_one, shiftRight_one]
      omega
    have e2 : octMask (k + 1) = 2 ^ 3 * octMask k + 3 := by
      simp only [octMask]
      omega
    rw [e1, e2, and_block 3 _ _ _ _ (by omega) (by norm_num), ih, and_three]
    simp only [mapOct]
    omega

theorem mapOct_comp (f g : Nat → Nat) (hf : ∀ d, d < 8 → f d < 8) (k x : Nat) :
    mapOct g k (mapOct f k x) = mapOct (fun d => g (f d)) k x := by
  induction k generalizing x with
  | zero => rfl
  | succ k ih =>
    have h1 := hf (x % 8) (Nat.mod_lt x (by norm_num))
    have e1 : (f (x % 8) + 8 * mapOct f k (x / 8)) % 8 = f (x % 8) := by omega
    have e2 : (f (x % 8) + 8 * mapOct f k (x / 8)) / 8 = mapOct f k (x / 8) := by omega
    simp only [mapOct, e1, e2, ih]

theorem mapOct_add (f g : Nat → Nat) (k x : Nat) :
    mapOct f k x + mapOct g k x = mapOct (fun d => f d + g d) k x := by
  induction k generalizing x with
  | zero => rfl
  | succ k ih =>
    simp only [mapOct, ← ih]
    omega

theorem mapOct_congr (f g : Nat → Nat) (h : ∀ d, d < 8 → f d = g d) (k x : Nat) :
    mapOct f k x = mapOct g k x := by
  induction k generalizing x with
  | zero => rfl
  | succ k ih => simp only [mapOct, ih, h (x % 8) (Nat.mod_lt x (by norm_num))]

theorem mapOct_id (k x : Nat) (h : x < 8 ^ k) : mapOct (fun d => d) k x = x := by
  induction k generalizing x with
  | zero =>
    simp only [Nat.pow_zero] at h
    simp only [mapOct]
    omega
  | succ k ih =>
    have h1 : x / 8 < 8 ^ k := by
      rw [Nat.pow_succ] at h
      omega
    simp only [mapOct, ih (x / 8) h1]
    omega

theorem pc3_le (d : Nat) (h : d < 8) : pc3 d ≤ 3 := by
  unfold pc3
  omega

theorem mapOct_bound (f : Nat → Nat) (hf : ∀ d, d < 8 → f d ≤ 3) (k x : Nat) :
    7 * mapOct f k x + 3 ≤ 3 * 8 ^ k := by
  induction k generalizing x with
  | zero => simp [mapOct]
  | succ k ih =>
    have h1 := hf (x % 8) (Nat.mod_lt x (by norm_num))
    have h2 := ih (x / 8)
    simp only [mapOct, Nat.pow_succ]
    omega

/-- Adding the number shifted right by three and masking with `0307...07` leaves,
in base 64, the sums of neighbouring octal digits, when no digit exceeds 3. -/
theorem add_shift_mask_pairs (f : Nat → Nat) (hf : ∀ d, d < 8 → f d ≤ 3) (j x : Nat) :
    (mapOct f (2 * j + 1) x + (mapOct f (2 * j + 1) x >>> 3)) &&& pairMask j
      = pairSums f j x := by
  induction j generalizing x with
  | zero =>
    have h1 := hf (x % 8) (Nat.mod_lt x (by norm_num))
    simp only [Nat.mul_zero, Nat.zero_add, mapOct, pairMask, pairSums, shiftRight_three,
      and_three]
    omega
  | succ j ih =>
    have h0 := hf (x % 8) (Nat.mod_lt x (by norm_num))
    have h1 := hf (x / 8 % 8) (Nat.mod_lt _ (by norm_num))
    have h2 := hf (x / 8 / 8 % 8) (Nat.mod_lt _ (by norm_num))
    have e64 : x / 8 / 8 = x / 64 := by omega
    have hy : mapOct f (2 * (j + 1) + 1) x
        = f (x % 8) + 8 * (f (x / 8 % 8) + 8 * mapOct f (2 * j + 1) (x / 64)) := by
      rw [show 2 * (j + 1) + 1 = (2 * j + 1) + 1 + 1 by omega]
      simp only [mapOct, e64]
    have hlow : mapOct f (2 * j + 1) (x / 64) % 8 = f (x / 64 % 8) := by
      simp only [mapOct]
      rw [e64] at h2
      omega
    rw [e64] at h2
    have hsum : mapOct f (2 * (j + 1) + 1) x + (mapOct f (2 * (j + 1) + 1) x >>> 3)
        = 2 ^ 6 * (mapOct f (2 * j + 1) (x / 64) + (mapOct f (2 * j + 1) (x / 64) >>> 3))
          + (f (x % 8) + f (x / 8 % 8) + 8 * (f (x / 8 % 8) + f (x / 64 % 8))) := by
      rw [hy, shiftRight_three, shiftRight_three]
      omega
    have hmask : pairMask (j + 1) = 2 ^ 6 * pairMask j + 7 := by
      simp only [pairMask]
      omega
    rw [hsum, hmask, and_block 6 _ _ _ _ (by omega) (by norm_num), ih, and_seven]
    simp only [pairSums]
    omega

theorem pairSums_mod (f : Nat → Nat) (j x : Nat) :
    pairSums f j x % 63 = sumOct f (2 * j + 1) x % 63 := by
  induction j generalizing x with
  | zero => simp [pairSums, sumOct]
  | succ j ih =>
    have e64 : x / 8 / 8 = x / 64 := by omega
    have h := ih (x / 64)
    have e1 : sumOct f ((2 * j + 1) + 1 + 1) x
        = f (x % 8) + (f (x / 8 % 8) + sumOct f (2 * j + 1) (x / 64)) := by
      rw [← e64]
      rfl
    have e2 : pairSums f (j + 1) x
        = (f (x % 8) + f (x / 8 % 8)) + 64 * pairSums f j (x / 64) := rfl
    rw [show 2 * (j + 1) + 1 = (2 * j + 1) + 1 + 1 by omega, e1, e2]
    omega

theorem sumOct_bound (f : Nat → Nat) (hf : ∀ d, d < 8 → f d ≤ 3) (k x : Nat) :
    sumOct f k x ≤ 3 * k := by
  induction k generalizing x with
  | zero => simp [sumOct]
  | succ k ih =>
    have h1 := hf (x % 8) (Nat.mod_lt x (by norm_num))
    have h2 := ih (x / 8)
    simp only [sumOct]
    omega

theorem sumOct_bits (k x : Nat) : sumOct pc3 k x = bitCount (3 * k) x := by
  induction k generalizing x with
  | zero => rfl
  | succ k ih =>
    have e8 : x / 2 / 2 / 2 = x / 8 := by omega
    rw [show 3 * (k + 1) = 3 * k + 1 + 1 + 1 by omega]
    simp only [sumOct, bitCount, ih, e8, pc3]
    omega

theorem bitCount_top (k x : Nat) : bitCount (k + 1) x = bitCount k x + x / 2 ^ k % 2 := by
  induction k generalizing x with
  | zero => simp [bitCount]
  | succ k ih =>
    have h := ih (x / 2)
    have e : x / 2 / 2 ^ k = x / 2 ^ (k + 1) := by
      rw [Nat.div_div_eq_div_mul, Nat.pow_succ, Nat.mul_comm]
    rw [e] at h
    rw [bitCount, h, bitCount]
    omega

theorem subU_eq (w a b : Nat) (ha : a < 2 ^ w) (hb : b ≤ a) : subU w a b = a - b := by
  unfold subU
  have h1 : b % 2 ^ w = b := Nat.mod_eq_of_lt (by omega)
  have h2 : a % 2 ^ w = a := Nat.mod_eq_of_lt ha
  rw [h1, h2, show a + (2 ^ w - b) = (a - b) + 2 ^ w by omega, Nat.add_mod_right]
  exact Nat.mod_eq_of_lt (by omega)

/-- The value of `y` after the second assignment of `XCBPopcount`: every octal
digit of the mask replaced by its population count. -/
theorem popcount_digits (w mask : Nat) (hw : 32 ≤ w) (hm : mask < 2 ^ 32) :
    subU w (subU w mask ((mask >>> 1) &&& 0o33333333333))
        ((((mask >>> 1) &&& 0o33333333333) >>> 1) &&& 0o33333333333)
      = mapOct pc3 11 mask := by
  have hM : (0o33333333333 : Nat) = octMask 11 := by decide
  have hw2 : (2 : Nat) ^ 32 ≤ 2 ^ w := Nat.pow_le_pow_right (by norm_num) hw
  have h8 : mask < 8 ^ 11 := by
    have : (2 : Nat) ^ 32 < 8 ^ 11 := by norm_num
    omega
  have e1 : (mask >>> 1) &&& octMask 11 = mapOct (fun d => d / 2) 11 mask :=
    shift_mask_halves 11 mask
  have e2 : (mapOct (fun d => d / 2) 11 mask >>> 1) &&& octMask 11
      = mapOct (fun d => d / 2 / 2) 11 mask := by
    rw [shift_mask_halves, mapOct_comp _ _ (by intro d hd; omega)]
  have e3 : mapOct (fun d => d / 2) 11 mask + mapOct (fun d => d / 2 / 2) 11 mask
      + mapOct pc3 11 mask = mask := by
    rw [mapOct_add, mapOct_add, mapOct_congr _ (fun d => d) _ 11 mask, mapOct_id 11 mask h8]
    intro d hd
    simp only [pc3]
    omega
  have i1 : subU w mask (mapOct (fun d => d / 2) 11 mask)
      = mask - mapOct (fun d => d / 2) 11 mask := subU_eq w _ _ (by omega) (by omega)
  rw [hM, e1, e2, i1, subU_eq w _ _ (by omega) (by omega)]
  omega

theorem bitCount_le (k x : Nat) : bitCount k x ≤ k := by
  induction k generalizing x with
  | zero => simp [bitCount]
  | succ k ih =>
    have h := ih (x / 2)
    simp only [bitCount]
    omega

/-! ## `XCBPopcount`: claim -/

/-- C13: for every 32-bit mask, `XCBPopcount(mask)` is the number of 1 bits of
the mask as counted bit by bit, hence a value from 0 to 32 (whatever the width,
at least 32 bits, of `unsigned long`). -/
theorem popcount_correct (w mask : Nat) (hw : 32 ≤ w) (hm : mask < 2 ^ 32) :
    XCBPopcount w mask = (popcount32 mask : Int) ∧
    (0 : Int) ≤ XCBPopcount w mask ∧ XCBPopcount w mask ≤ 32 := by
  have hN : (0o30707070707 : Nat) = pairMask 5 := by decide
  have hw2 : (2 : Nat) ^ 32 ≤ 2 ^ w := Nat.pow_le_pow_right (by norm_num) hw
  have hb := mapOct_bound pc3 pc3_le 11 mask
  have h811 : (8 : Nat) ^ 11 = 8589934592 := by norm_num
  have h232 : (2 : Nat) ^ 32 = 4294967296 := by norm_num
  have hsmall : (mapOct pc3 11 mask + (mapOct pc3 11 mask >>> 3)) % 2 ^ w
      = mapOct pc3 11 mask + (mapOct pc3 11 mask >>> 3) := by
    apply Nat.mod_eq_of_lt
    rw [shiftRight_three]
    omega
  have hp := add_shift_mask_pairs pc3 pc3_le 5 mask
  rw [show 2 * 5 + 1 = 11 from rfl] at hp
  have hs := pairSums_mod pc3 5 mask
  rw [show 2 * 5 + 1 = 11 from rfl] at hs
  have hle := sumOct_bound pc3 pc3_le 11 mask
  have hbits : sumOct pc3 11 mask = popcount32 mask := by
    have h1 := sumOct_bits 11 mask
    rw [show 3 * 11 = 33 from rfl] at h1
    have h2 := bitCount_top 32 mask
    rw [show 32 + 1 = 33 from rfl] at h2
    have h3 : mask / 2 ^ 32 = 0 := Nat.div_eq_of_lt hm
    rw [h1, h2, h3]
    unfold popcount32
    omega
  have h32 : popcount32 mask ≤ 32 := bitCount_le 32 mask
  have hval : XCBPopcount w mask = (popcount32 mask : Int) := by
    unfold XCBPopcount
    simp only [popcount_digits w mask hw hm, hsmall, hN, hp]
    rw [show (0o77 : Nat) = 63 by decide, hs, hbits, Nat.mod_eq_of_lt (by omega)]
    exact toCInt_small _ (by omega)
  rw [hval]
  exact ⟨rfl, Int.ofNat_nonneg _, by exact_mod_cast h32⟩

/-- C13, at the mask `0xdeadbeef` on an LP64 machine: 24 bits are set. -/
theorem popcount_correct_witness :
    XCBPopcount 64 0xdeadbeef = (popcount32 0xdeadbeef : Int) ∧
    (0 : Int) ≤ XCBPopcount 64 0xdeadbeef ∧ XCBPopcount 64 0xdeadbeef ≤ 32 :=
  popcount_correct 64 0xdeadbeef (by decide) (by decide)

/-! ## Transport selection, descriptors and buffers: claims -/

/-- A successful call on a non-empty name stores the text before the last colon
as the host. -/
theorem parse_success_host (E : Env) (name : List Char) (out res : Slots)
    (hne : name ≠ []) (h : XCBParseDisplay E (some name) out = (1, res)) :
    ∃ host rest, name = host ++ ':' :: rest ∧ ':' ∉ rest ∧ res.host = some host := by
  cases hr : strrchr name ':' with
  | none => simp [XCBParseDisplay, hne, hr] at h
  | some i =>
    obtain ⟨host, rest, rfl, hc, -⟩ := strrchr_some ':' name i hr
    refine ⟨host, rest, rfl, hc, ?_⟩
    rw [parse_split E host rest out hc] at h
    split at h
    · cases h
    · split at h
      · cases h
      · split at h
        · cases h
        · obtain rfl := (Prod.mk.inj h).2
          rfl

theorem xcb_open_tcp_no_unix_socket (S : Sys) (host : List Char) (port : Nat) (fd : Int) :
    Event.socket Family.unix fd ∉ (_xcb_open_tcp S host port).2 := by
  unfold _xcb_open_tcp
  cases S.gethostbyname host with
  | none => simp
  | some a =>
    simp only
    split
    · simp
    · split <;> simp

theorem xcb_open_unix_socket (S : Sys) (file : List Char) :
    Event.socket Family.unix (S.socket Family.unix) ∈ (_xcb_open_unix S file).2 := by
  unfold _xcb_open_unix
  simp only
  split
  · simp
  · split <;> simp

/-- C14: `_xcb_open` runs the Unix-domain opener when the host is the empty
string and the TCP opener otherwise, so that it creates a Unix-domain socket if
and only if the host is empty.  Hence a successfully parsed name is routed to
the Unix-domain socket exactly when it is a colon followed by text without
colon (its last colon is its first character). -/
theorem xcb_open_dispatch (S : Sys) (host : List Char) (d : Int) :
    (host = [] → ∃ file, _xcb_open S host d = _xcb_open_unix S file) ∧
    (host ≠ [] → ∃ port, _xcb_open S host d = _xcb_open_tcp S host port) ∧
    ((∃ fd, Event.socket Family.unix fd ∈ (_xcb_open S host d).2) ↔ host = []) ∧
    (∀ E name out res, name ≠ [] → XCBParseDisplay E (some name) out = (1, res) →
      ((∃ fd, Event.socket Family.unix fd ∈ (_xcb_open S (res.host.getD []) res.display).2)
        ↔ ∃ rest, name = ':' :: rest ∧ ':' ∉ rest)) := by
  have hu : ∀ h : List Char, h = [] → ∃ file, _xcb_open S h d = _xcb_open_unix S file := by
    intro h e
    exact ⟨(base ++ fmtInt d).take ((base.length + 1) + 20 - 1),
      by simp only [_xcb_open, e, ne_eq, not_true_eq_false, if_false]⟩
  have ht : ∀ h : List Char, h ≠ [] → ∃ port, _xcb_open S h d = _xcb_open_tcp S h port := by
    intro h e
    exact ⟨((X_TCP_PORT + d) % 2 ^ 16).toNat,
      by simp only [_xcb_open, e, ne_eq, not_false_eq_true, if_true]⟩
  have hiff : ∀ (h : List Char) (d2 : Int),
      (∃ fd, Event.socket Family.unix fd ∈ (_xcb_open S h d2).2) ↔ h = [] := by
    intro h d2
    constructor
    · rintro ⟨fd, hm⟩
      by_contra hne
      have e : _xcb_open S h d2 = _xcb_open_tcp S h ((X_TCP_PORT + d2) % 2 ^ 16).toNat := by
        simp only [_xcb_open, hne, ne_eq, not_false_eq_true, if_true]
      rw [e] at hm
      exact xcb_open_tcp_no_unix_socket S h _ fd hm
    · intro e
      have e2 : _xcb_open S h d2
          = _xcb_open_unix S ((base ++ fmtInt d2).take ((base.length + 1) + 20 - 1)) := by
        simp only [_xcb_open, e, ne_eq, not_true_eq_false, if_false]
      exact ⟨S.socket Family.unix, by rw [e2]; exact xcb_open_unix_socket S _⟩
  refine ⟨hu host, ht host, hiff host d, ?_⟩
  intro E name out res hne h
  obtain ⟨hst, rest, e, hc, hh⟩ := parse_success_host E name out res hne h
  rw [hiff, hh, Option.getD_some]
  constructor
  · intro e0
    subst e0
    exact ⟨rest, e, hc⟩
  · rintro ⟨rest2, e2, hc2⟩
    cases hst with
    | nil => rfl
    | cons c t =>
      rw [e2] at e
      obtain ⟨-, e3⟩ := List.cons.inj e
      exact absurd (e3 ▸ List.mem_append_right t (List.mem_cons_self ':' rest)) hc2

/-- C14, at the example of the claim: `"unix:0"` parses to the host `"unix"` and
is not routed to the Unix-domain socket, while `":0"` is. -/
theorem xcb_open_dispatch_witness :
    (¬ ∃ rest, "unix:0".toList = ':' :: rest ∧ ':' ∉ rest) ∧
    (¬ ∃ fd, Event.socket Family.unix fd ∈ (_xcb_open sysOk ((some "unix".toList).getD []) 0).2) ∧
    (∃ port, _xcb_open sysOk "unix".toList 0 = _xcb_open_tcp sysOk "unix".toList port) ∧
    (∃ fd, Event.socket Family.unix fd ∈ (_xcb_open sysOk ((some ([] : List Char)).getD []) 0).2) :=
  have h1 := (xcb_open_dispatch sysOk "unix".toList 0).2.2.2 lp64 "unix:0".toList slots0
    { host := some "unix".toList, display := 0, screen := some 0 } (by decide) (by decide)
  have h2 := (xcb_open_dispatch sysOk [] 0).2.2.2 lp64 ":0".toList slots0
    { host := some [], display := 0, screen := some 0 } (by decide) (by decide)
  have hn : ¬ ∃ rest, "unix:0".toList = ':' :: rest ∧ ':' ∉ rest := by
    rintro ⟨rest, e, -⟩
    exact absurd (List.cons.inj e).1 (by decide)
  ⟨hn, fun hx => hn (h1.1 hx), (xcb_open_dispatch sysOk "unix".toList 0).2.1 (by decide),
    h2.2 ⟨"0".toList, by decide, by decide⟩⟩

/-- C15 fails on the code: on a system whose `socket` returns descriptor 3 and
whose `connect` fails, `_xcb_open_unix` and `_xcb_open_tcp` return -1 after the
calls `socket` and `connect` only, without a `close`, and descriptor 3 is left
open. -/
theorem open_failure_leaves_descriptor :
    _xcb_open_unix sysRefused "/tmp/.X11-unix/X0".toList
      = (-1, [Event.socket Family.unix 3,
              Event.connect 3 (SockAddr.unix "/tmp/.X11-unix/X0".toList) (-1)]) ∧
    openAfter (_xcb_open_unix sysRefused "/tmp/.X11-unix/X0".toList).2 [] = [3] ∧
    _xcb_open_tcp sysRefused "example".toList 6000
      = (-1, [Event.gethostbyname "example".toList true, Event.socket Family.inet 3,
              Event.connect 3 (SockAddr.inet 6000 7) (-1)]) ∧
    openAfter (_xcb_open_tcp sysRefused "example".toList 6000).2 [] = [3] ∧
    openAfter (_xcb_open sysRefused [] 0).2 [] ≠ [] := by
  decide

/-- The outcome of `XCBParseDisplay` for a given name and `DISPLAY`: either 0
with the slots untouched, whatever the allocator does, or the name is valid and
the call stores a host, a display and a screen that do not depend on the
slots, unless the allocation fails. -/
theorem parse_outcome (w : Nat) (disp name : Option (List Char)) :
    (∀ m out, XCBParseDisplay { ulongBits := w, DISPLAY := disp, malloc := m } name out
        = (0, out)) ∨
    (∃ len host display screen, ∀ m out,
      XCBParseDisplay { ulongBits := w, DISPLAY := disp, malloc := m } name out
        = if m len = false then ((0 : Int), { out with host := none })
          else (1, { host := some host, display := display,
                     screen := out.screen.map (fun _ => screen) })) := by
  unfold XCBParseDisplay
  simp only
  cases (if name = none ∨ name = some [] then disp else name) with
  | none => exact Or.inl (fun _ _ => rfl)
  | some n =>
    simp only
    cases hr : strrchr n ':' with
    | none => exact Or.inl (fun _ _ => rfl)
    | some len =>
      simp only
      by_cases h0 : (strtoul w (n.drop (len + 1))).2 = 0
      · exact Or.inl (fun _ _ => if_pos h0)
      · simp only [h0, if_false]
        cases hs : parseScreen w ((n.drop (len + 1)).drop (strtoul w (n.drop (len + 1))).2) with
        | none => exact Or.inl (fun _ _ => rfl)
        | some screen =>
          exact Or.inr ⟨len + 1, n.take len, toCInt (strtoul w (n.drop (len + 1))).1, screen,
            fun _ _ => rfl⟩

/-- C16: a call of `XCBParseDisplay` that fails in parsing (one that returns 0
also when the allocation succeeds: no display source, no colon, no display
digits or a malformed screen part) leaves the three slots as they were; and a
call that returns 0 with a slot changed has changed `*host` only, after the
whole string was found valid. -/
theorem parse_failure_frame (E : Env) (name : Option (List Char)) (out : Slots) :
    ((XCBParseDisplay { E with malloc := fun _ => true } name out).1 = 0 →
      XCBParseDisplay E name out = (0, out)) ∧
    (∀ res, XCBParseDisplay E name out = (0, res) →
      res = out ∨ (res = { out with host := none } ∧
        (XCBParseDisplay { E with malloc := fun _ => true } name out).1 = 1)) := by
  obtain ⟨w, disp, mal⟩ := E
  rcases parse_outcome w disp name with h | ⟨len, host, display, screen, h⟩
  · exact ⟨fun _ => h mal out, fun res e => Or.inl (by rw [h mal out] at e; exact (Prod.mk.inj e).2.symm)⟩
  · constructor
    · intro e
      rw [h (fun _ => true) out] at e
      simp at e
    · intro res e
      rw [h mal out] at e
      right
      split at e
      · refine ⟨(Prod.mk.inj e).2.symm, ?_⟩
        rw [h (fun _ => true) out]
        simp
      · cases e

/-- C16, at the four kinds of parse failure: no display source, no colon, no
display digits, a malformed screen part. -/
theorem parse_failure_frame_witness :
    XCBParseDisplay lp64 none slots0 = (0, slots0) ∧
    XCBParseDisplay lp64 (some "novalidcolon".toList) slots0 = (0, slots0) ∧
    XCBParseDisplay lp64 (some ":".toList) slots0 = (0, slots0) ∧
    XCBParseDisplay lp64 (some "h:1.x".toList) slots0 = (0, slots0) :=
  ⟨(parse_failure_frame lp64 none slots0).1 (by decide),
   (parse_failure_frame lp64 (some "novalidcolon".toList) slots0).1 (by decide),
   (parse_failure_frame lp64 (some ":".toList) slots0).1 (by decide),
   (parse_failure_frame lp64 (some "h:1.x".toList) slots0).1 (by decide)⟩

/-- C17: for every `int` display number the path `"/tmp/.X11-unix/X"` followed
by the `%d` conversion, with its terminator, fits the local buffer of
`sizeof(base) + 20 = 37` bytes, so that `snprintf` keeps it whole, and fits the
108 bytes of `sun_path`, into which `_xcb_open_unix` copies it. -/
theorem unix_path_fits_buffers (S : Sys) (d : Int) (hlo : -2 ^ 31 ≤ d) (hhi : d < 2 ^ 31) :
    (base.length + 1) + 20 = 37 ∧
    (base ++ fmtInt d).length + 1 ≤ (base.length + 1) + 20 ∧
    (base ++ fmtInt d).take ((base.length + 1) + 20 - 1) = base ++ fmtInt d ∧
    (∀ fd path r, Event.connect fd (SockAddr.unix path) r ∈ (_xcb_open S [] d).2 →
      path = base ++ fmtInt d ∧ path.length + 1 ≤ sunPathSize) := by
  have h := fmtInt_length d hlo hhi
  have hb : base.length = 16 := by decide
  have hlen : (base ++ fmtInt d).length + 1 ≤ (base.length + 1) + 20 := by
    rw [List.length_append, hb]
    omega
  refine ⟨by rw [hb], hlen, ?_, ?_⟩
  · apply List.take_of_length_le
    omega
  · intro fd path r hm
    rw [xcb_open_empty_host S d hlo hhi] at hm
    have e := xcb_open_unix_connects S _ fd _ r hm
    obtain rfl := SockAddr.unix.inj e
    refine ⟨rfl, ?_⟩
    unfold sunPathSize
    rw [List.length_append, hb]
    omega

/-- C17, at the smallest `int`: the path `"/tmp/.X11-unix/X-2147483648"` takes
28 bytes with its terminator. -/
theorem unix_path_fits_buffers_witness :
    (base.length + 1) + 20 = 37 ∧
    (base ++ fmtInt (-2147483648)).length + 1 ≤ (base.length + 1) + 20 ∧
    (base ++ fmtInt (-2147483648)).take ((base.length + 1) + 20 - 1)
      = base ++ fmtInt (-2147483648) ∧
    (∀ fd path r,
      Event.connect fd (SockAddr.unix path) r ∈ (_xcb_open sysOk [] (-2147483648)).2 →
      path = base ++ fmtInt (-2147483648) ∧ path.length + 1 ≤ sunPathSize) :=
  unix_path_fits_buffers sysOk (-2147483648) (by decide) (by decide)

/-! ## Determinism and round trip: claims -/

/-- C18, as stated, fails: two calls with the same name `"host:10.2"` and the
same `DISPLAY` (unset) return 1 when the host buffer is allocated and 0 when
the allocation fails, so the result is not a function of the name and
`DISPLAY` alone. -/
theorem parse_deterministic_counterexample :
    lp64.DISPLAY = ({ lp64 with malloc := fun _ => false } : Env).DISPLAY ∧
    XCBParseDisplay lp64 (some "host:10.2".toList) slots0
      = (1, { host := some "host".toList, display := 10, screen := some 2 }) ∧
    XCBParseDisplay { lp64 with malloc := fun _ => false } (some "host:10.2".toList) slots0
      = (0, { host := none, display := 0, screen := some 0 }) := by
  decide

/-- C18 (amended): on a given machine `XCBParseDisplay` is a function of its
name argument, of `DISPLAY` and of whether the host buffer is allocated.  Two
calls with the same name and the same `DISPLAY`, whatever the slots hold
before, return the same flag when the allocator is the same, and more
generally when the two allocators answer one request, of a size fixed by the
name and `DISPLAY`, alike; two such calls that both return 1, under any
allocators, store the same host and display and the same screen (where there
is a screen slot); and for a non-empty name the result is the same under any
two values of `DISPLAY`. -/
theorem parse_deterministic (E : Env) (name : Option (List Char)) (out1 out2 : Slots) :
    (XCBParseDisplay E name out1).1 = (XCBParseDisplay E name out2).1 ∧
    (∃ len, ∀ m1 m2, m1 len = m2 len →
      (XCBParseDisplay { E with malloc := m1 } name out1).1
        = (XCBParseDisplay { E with malloc := m2 } name out2).1) ∧
    (∀ m2, (XCBParseDisplay E name out1).1 = 1 →
      (XCBParseDisplay { E with malloc := m2 } name out2).1 = 1 →
      (XCBParseDisplay E name out1).2.host
        = (XCBParseDisplay { E with malloc := m2 } name out2).2.host ∧
      (XCBParseDisplay E name out1).2.display
        = (XCBParseDisplay { E with malloc := m2 } name out2).2.display ∧
      ∀ s1 s2, (XCBParseDisplay E name out1).2.screen = some s1 →
        (XCBParseDisplay { E with malloc := m2 } name out2).2.screen = some s2 → s1 = s2) ∧
    (∀ n d1 d2, n ≠ [] →
      XCBParseDisplay { E with DISPLAY := d1 } (some n) out1
        = XCBParseDisplay { E with DISPLAY := d2 } (some n) out1) := by
  obtain ⟨w, disp, mal⟩ := E
  refine ⟨?_, ?_, ?_, ?_⟩
  · rcases parse_outcome w disp name with h | ⟨len, host, display, screen, h⟩
    · rw [h mal out1, h mal out2]
    · rw [h mal out1, h mal out2]
      split <;> rfl
  · rcases parse_outcome w disp name with h | ⟨len, host, display, screen, h⟩
    · refine ⟨0, ?_⟩
      intro m1 m2 _
      simp only
      rw [h m1 out1, h m2 out2]
    · refine ⟨len, ?_⟩
      intro m1 m2 hm
      simp only
      rw [h m1 out1, h m2 out2, hm]
      split <;> rfl
  · intro m2
    rcases parse_outcome w disp name with h | ⟨len, host, display, screen, h⟩
    · rw [h mal out1]
      intro e
      simp at e
    · simp only
      rw [h mal out1, h m2 out2]
      split
      · intro e
        simp at e
      · split
        · intro _ e
          simp at e
        · intro _ _
          refine ⟨rfl, rfl, ?_⟩
          intro s1 s2 e1 e2
          simp only [Option.map_eq_some'] at e1 e2
          obtain ⟨_, _, rfl⟩ := e1
          obtain ⟨_, _, rfl⟩ := e2
          rfl
  · intro n d1 d2 hn
    simp [XCBParseDisplay, hn]

/-- C18 (amended), for the name `"host:10.2"` with different slot contents and
allocators, and under two values of `DISPLAY`. -/
theorem parse_deterministic_witness :
    ((XCBParseDisplay lp64 (some "host:10.2".toList) slots0).2.host
        = (XCBParseDisplay { lp64 with malloc := fun n => decide (n < 100) }
            (some "host:10.2".toList)
            { host := some "x".toList, display := 9, screen := some 9 }).2.host ∧
      (XCBParseDisplay lp64 (some "host:10.2".toList) slots0).2.display
        = (XCBParseDisplay { lp64 with malloc := fun n => decide (n < 100) }
            (some "host:10.2".toList)
            { host := some "x".toList, display := 9, screen := some 9 }).2.display ∧
      ∀ s1 s2, (XCBParseDisplay lp64 (some "host:10.2".toList) slots0).2.screen = some s1 →
        (XCBParseDisplay { lp64 with malloc := fun n => decide (n < 100) }
            (some "host:10.2".toList)
            { host := some "x".toList, display := 9, screen := some 9 }).2.screen = some s2 →
        s1 = s2) ∧
    XCBParseDisplay { lp64 with DISPLAY := none } (some "host:10.2".toList) slots0
      = XCBParseDisplay { lp64 with DISPLAY := some ":7".toList } (some "host:10.2".toList)
          slots0 :=
  ⟨(parse_deterministic lp64 (some "host:10.2".toList) slots0
      { host := some "x".toList, display := 9, screen := some 9 }).2.2.1
      (fun n => decide (n < 100)) (by decide) (by decide),
   (parse_deterministic lp64 (some "host:10.2".toList) slots0 slots0).2.2.2
      "host:10.2".toList none (some ":7".toList) (by decide)⟩

/-- C19, as stated, fails: for the host `"a:b"`, display 10 and screen 2 the
formatted name is `"a:b:10.2"`, and when the allocation of the host buffer
fails `XCBParseDisplay` returns 0 on it, with `*host` set to null. -/
theorem format_parse_counterexample :
    "a:b".toList ++ ':' :: (fmtInt 10 ++ '.' :: fmtInt 2) = "a:b:10.2".toList ∧
    XCBParseDisplay { lp64 with malloc := fun _ => false }
        (some ("a:b".toList ++ ':' :: (fmtInt 10 ++ '.' :: fmtInt 2))) slots0
      = (0, { host := none, display := 0, screen := some 0 }) := by
  decide

/-- C19 (amended): for every host string `h` (any characters other than NUL,
colons included) and all integers `d`, `s` with `0 ≤ d, s < 2^31`, when the host
buffer is allocated, `XCBParseDisplay` applied to
`h ++ ":" ++ decimal(d) ++ "." ++ decimal(s)` returns 1 and stores exactly `h`,
`d` and `s` (the screen where there is a screen slot). -/
theorem format_parse_roundtrip (E : Env) (h : List Char) (d s : Int) (out : Slots)
    (hw : 32 ≤ E.ulongBits) (hm : E.malloc (h.length + 1) = true)
    (_hh : ∀ c ∈ h, c ≠ Char.ofNat 0)
    (hd0 : 0 ≤ d) (hd : d < 2 ^ 31) (hs0 : 0 ≤ s) (hs : s < 2 ^ 31) :
    XCBParseDisplay E (some (h ++ ':' :: (fmtInt d ++ '.' :: fmtInt s))) out =
      (1, { host := some h, display := d, screen := out.screen.map (fun _ => s) }) := by
  obtain ⟨hD, hDd, hDv⟩ := fmtInt_nonneg d hd0
  obtain ⟨hS, hSd, hSv⟩ := fmtInt_nonneg s hs0
  have hDlt : digitsValue (fmtInt d) < 2 ^ 31 := by
    have : (digitsValue (fmtInt d) : Int) < 2 ^ 31 := by rw [hDv]; exact hd
    exact_mod_cast this
  have hSlt : digitsValue (fmtInt s) < 2 ^ 31 := by
    have : (digitsValue (fmtInt s) : Int) < 2 ^ 31 := by rw [hSv]; exact hs
    exact_mod_cast this
  have t1 : toCInt (digitsValue (fmtInt d) : Int) = d := by rw [toCInt_small _ hDlt, hDv]
  have t2 : toCInt (digitsValue (fmtInt s) : Int) = s := by rw [toCInt_small _ hSlt, hSv]
  rw [parse_display_screen E h (fmtInt d) (fmtInt s) out hD hDd hS hSd]
  simp only [hm, Bool.true_eq_false, if_false, ulong_small _ _ hw hDlt,
    ulong_small _ _ hw hSlt, t1, t2]

/-- C19 (amended), at the host `"a:b"`, display 10 and screen 2. -/
theorem format_parse_roundtrip_witness :
    XCBParseDisplay lp64 (some ("a:b".toList ++ ':' :: (fmtInt 10 ++ '.' :: fmtInt 2))) slots0
      = (1, { host := some "a:b".toList, display := 10,
              screen := slots0.screen.map (fun _ => (2 : Int)) }) :=
  format_parse_roundtrip lp64 "a:b".toList 10 2 slots0 (by decide) (by decide) (by decide)
    (by decide) (by decide) (by decide) (by decide)

end XCB
